import Mathlib

/-!
Verification development for the auto-batching evaluation engine in
Source/CNTKv2LibraryDll/AutoBatch.cpp (class Variable::Memoize).

Shallow embedding conventions:
- VarId stands for the identity of a VariableFields object (the m_dataFields
  pointer of a Variable); comparing two VarIds is pointer comparison of the
  data fields.  FunId stands for the identity of a PrimitiveFunction object.
- Mutable fields of Variables and Functions (m_value, m_gradient, m_lazyIndex,
  m_pendingInputs, m_consumers, m_visited) live in an explicit EngineState and
  are passed around; static construction-time attributes (kind, shape,
  needs-gradient flag, owner) also live there but are never mutated by the
  engine.
- C++ exceptions thrown by LogicError / fail_if are modeled with
  Except String; the error string is the message of the C++ call.
- Machine integers: m_pendingInputs is an int, modeled as Int; sizes are
  size_t, modeled as Nat (no arithmetic in the file comes near overflow).
  SIZE_MAX used as a sentinel slice index is modeled as the none case of
  Option Nat.
- Tensors (NDArrayView objects) are modeled symbolically by TensorExpr;
  kernels of the external collaborators (ComputeKnowableValue, SliceView,
  IndexLastAxis, SetValue) build symbolic terms.  In-place SetValue is
  modeled by wrapping the stored expression.
- Reference counting is not modeled: the m_outputComposite strong-reference
  hack that keeps synthesized Splice/Slice functions alive (lines 561, 586)
  has no observable effect in a garbage-free value model, and the function
  store only grows.
-/

namespace AutoBatch

/-- Identity of a VariableFields object (a Variable handle up to the
m_dataFields pointer). -/
abbrev VarId := Nat

/-- Identity of a PrimitiveFunction object. -/
abbrev FunId := Nat

/-- The primitive op codes that AutoBatch.cpp distinguishes.  The full
PrimitiveOpType enumeration lives outside this translation unit; Tanh and
Plus stand for the remaining (regular, not special-cased) op codes. -/
inductive PrimitiveOpType where
  | StopGradient
  | Pass
  | NoOp
  | Reshape
  | Slice
  | Times
  | Splice
  | Plus
  | Tanh
deriving DecidableEq, Repr

/-- Line 26 of AutoBatch.cpp: the preprocessor defines BarrierOp as NoOp,
so every occurrence of PrimitiveOpType::BarrierOp in the file denotes the
NoOp op code. -/
def PrimitiveOpType.BarrierOp : PrimitiveOpType := PrimitiveOpType.NoOp

/-- IsViewOp (lines 95-105): predicate whether an op only takes a view on its
input.  The C++ list names both NoOp and BarrierOp; after the line-26 define
these are the same op code. -/
def IsViewOp (op : PrimitiveOpType) : Bool :=
  op == PrimitiveOpType.StopGradient ||
  op == PrimitiveOpType.Pass         ||
  op == PrimitiveOpType.NoOp         ||
  op == PrimitiveOpType.BarrierOp    ||
  op == PrimitiveOpType.Reshape      ||
  op == PrimitiveOpType.Slice

/-- VariableKind of a data-fields object (m_varKind). -/
inductive VarKind where
  | Input
  | Placeholder
  | Parameter
  | Constant
  | Output
deriving DecidableEq, Repr

/-- An attribute Dictionary (m_attributes), used only for equality comparison
and carried to the kernels; modeled as an association list of named integer
attributes (the only attributes AutoBatch.cpp itself ever writes are the
integers axis, beginIndex, endIndex). -/
abbrev AttrDict := List (String × Int)

/-- Pointwise update of a function-represented map. -/
def upd {β : Type} (f : Nat → β) (x : Nat) (b : β) : Nat → β :=
  fun y => if y = x then b else f y

@[simp] theorem upd_same {β : Type} (f : Nat → β) (x : Nat) (b : β) :
    upd f x b x = b := by
  simp [upd]

@[simp] theorem upd_other {β : Type} (f : Nat → β) (x y : Nat) (b : β)
    (h : y ≠ x) : upd f x b y = f y := by
  simp [upd, h]

/-! ## Arena allocator (lines 69-89) -/

/-- ARENASIZE (line 69): the arena chunk size, in elements. -/
def ARENASIZE : Nat := 64000000

/-- TotalSize of an NDShape: the product of its dimensions (external
collaborator NDShape::TotalSize). -/
def shapeTotalSize (shape : List Nat) : Nat := shape.foldl (· * ·) 1

/-- The state of the arena allocator: the identity of the current arena block
(m_currentArena, none when the static pointer is null), the used-elements
counter (m_currentArenaUsed) and a supply of fresh block identities. -/
structure ArenaState where
  currentArena : Option Nat
  used : Nat
  nextId : Nat
deriving DecidableEq, Repr

/-- The tensor returned by AllocateTensorInArena: either a standalone
NDArrayView, or the element range [start, start+numel) of an arena block,
reshaped to the requested shape via SliceView + AsShape. -/
inductive ArenaResult where
  | standalone (shape : List Nat)
  | region (block : Nat) (start : Nat) (numel : Nat) (shape : List Nat)
deriving DecidableEq, Repr

/-- AllocateTensorInArena (lines 70-89).  The dataType and device arguments
do not influence the allocation policy and are omitted. -/
def AllocateTensorInArena (st : ArenaState) (shape : List Nat) :
    ArenaResult × ArenaState :=
  let numElements := shapeTotalSize shape
  -- if too large then plain alloc (lines 76-77)
  if numElements > ARENASIZE then
    (ArenaResult.standalone shape, st)
  else
    -- if arena not large enough then waste its remainder and just allocate
    -- a fresh one (lines 79-83); the carve of lines 84-88 follows
    match st.currentArena with
    | none =>
        (ArenaResult.region st.nextId 0 numElements shape,
         ⟨some st.nextId, numElements, st.nextId + 1⟩)
    | some b =>
        if numElements > ARENASIZE - st.used then
          (ArenaResult.region st.nextId 0 numElements shape,
           ⟨some st.nextId, numElements, st.nextId + 1⟩)
        else
          (ArenaResult.region b st.used numElements shape,
           ⟨some b, st.used + numElements, st.nextId⟩)

/-- Run a sequence of arena allocations, returning the results in order. -/
def allocSeq (st : ArenaState) : List (List Nat) → List ArenaResult × ArenaState
  | [] => ([], st)
  | shape :: rest =>
      let r := AllocateTensorInArena st shape
      let rs := allocSeq r.2 rest
      (r.1 :: rs.1, rs.2)

/-! ## Symbolic tensors -/

/-- A symbolic NDArrayView.  leaf is the materialized value of a Parameter or
Constant variable (with its shape); kernel is the result of a
ComputeKnowableValue collaborator call; indexLastAxis and setConst record the
IndexLastAxis view and the in-place SetValue collaborator calls; arenaBuf is
a buffer obtained from AllocateTensorInArena. -/
inductive TensorExpr where
  | leaf (v : VarId) (shape : List Nat)
  | kernel (op : PrimitiveOpType) (args : List TensorExpr) (attrs : AttrDict)
      (shape : List Nat)
  | indexLastAxis (t : TensorExpr) (i : Nat)
  | setConst (c : Int) (t : TensorExpr)
  | arenaBuf (r : ArenaResult)

/-- Shape of a symbolic tensor (external collaborator Shape()). -/
def TensorExpr.shape : TensorExpr → List Nat
  | .leaf _ s => s
  | .kernel _ _ _ s => s
  | .indexLastAxis t _ => t.shape.dropLast
  | .setConst _ t => t.shape
  | .arenaBuf r => match r with
      | .standalone s => s
      | .region _ _ _ s => s

/-- IsSparse of a symbolic tensor (external collaborator NDArrayView::IsSparse).
Only the materialized values of leaf variables can be sparse; the engine
allocates every computed output dense (StorageFormat::Dense); views inherit
the storage of the viewed tensor. leafSparse tells which leaf variables hold
sparse storage. -/
def TensorExpr.isSparse (leafSparse : VarId → Bool) : TensorExpr → Bool
  | .leaf v _ => leafSparse v
  | .kernel _ _ _ _ => false
  | .indexLastAxis t _ => t.isSparse leafSparse
  | .setConst _ t => t.isSparse leafSparse
  | .arenaBuf _ => false

/-! ## Functions and the consumer list -/

/-- The static part of a PrimitiveFunction: op code (Op()), m_inputs (as
data-fields identities), the single output m_outputs[0] (AutoBatch.cpp
supports only single-output functions and raises LogicError otherwise), and
m_attributes. -/
structure GFun where
  op : PrimitiveOpType
  inputs : List VarId
  output : VarId
  attributes : AttrDict
deriving DecidableEq, Repr

instance : Inhabited GFun := ⟨⟨PrimitiveOpType.NoOp, [], 0, []⟩⟩

/-- Lookup environment used by the scheduler: resolves a FunId to its static
function record and a VarId to the shape stored in its data fields. -/
structure Env where
  funOf : FunId → GFun
  shapeOf : VarId → List Nat

/-- m_consumers of a VariableFields: one optimized first slot plus an
overflow vector, each entry a (consumer function, input position) pair. -/
structure Consumers where
  first : Option (FunId × Nat)
  second : List (FunId × Nat)
deriving DecidableEq, Repr

/-- The empty consumer list. -/
def Consumers.empty : Consumers := ⟨none, []⟩

/-- Record a consumer (lines 322-325 and 769-772): the first slot if it is
still free, otherwise the overflow vector. -/
def Consumers.push (c : Consumers) (fc : FunId × Nat) : Consumers :=
  match c.first with
  | none => ⟨some fc, c.second⟩
  | some _ => ⟨c.first, c.second ++ [fc]⟩

/-! ## The ReadyOps scheduler (lines 169-277) -/

/-- Per-position input comparison loop of AreBatchable (lines 188-208):
for position i, if the op is Times and i is 0 the two inputs must be the very
same data-fields object, otherwise the shapes must match.  The C++ loop runs
over the inputs of a, reading b at the same index; the caller asserts equal
arity (line 187). -/
def inputsMatch (sh : VarId → List Nat) (op : PrimitiveOpType) :
    Nat → List VarId → List VarId → Bool
  | _, [], _ => true
  | _, _ :: _, [] => true
  | i, ia :: as, ib :: bs =>
      (if op = PrimitiveOpType.Times ∧ i = 0 then
        -- for Times, the first arg must be the same object, not just the
        -- same shape (lines 193-200)
        ia == ib
      else
        -- shapes must match (lines 201-206)
        sh ia == sh ib) &&
      inputsMatch sh op (i + 1) as bs

/-- AreBatchable (lines 176-214): test whether two PrimitiveFunctions can be
executed as a single batched operation.  The LogicError guard of lines
181-182 (view ops other than the barrier never reach this test) is a
precondition; Schedule only calls this for non-view ops. -/
def AreBatchable (env : Env) (a b : FunId) : Bool :=
  let fa := env.funOf a
  let fb := env.funOf b
  -- op codes must match (lines 184-185)
  fa.op == fb.op &&
  -- all input dimensions must match, with the Times special case
  inputsMatch env.shapeOf fa.op 0 fa.inputs fb.inputs &&
  -- attributes must also match (lines 210-211)
  fa.attributes == fb.attributes

/-- The three ready sets of class ReadyOps (lines 171-173): the view-op list,
the list of regular-op buckets, and the barrier list.  Each
NonOwningFunctionListBuilder is modeled as the list of FunIds it threads
through m_link, in order. -/
structure ReadyOps where
  viewOps : List FunId
  regularOps : List (List FunId)
  barrierOps : List FunId
deriving DecidableEq, Repr

/-- The empty schedule. -/
def ReadyOps.initial : ReadyOps := ⟨[], [], []⟩

/-- empty (line 252). -/
def ReadyOps.isEmpty (s : ReadyOps) : Bool :=
  s.viewOps.isEmpty && s.regularOps.isEmpty && s.barrierOps.isEmpty

/-- Whether the head op of a bucket is batchable with f (the comparison
AreBatchable(f, iter->front()) of line 231; buckets are never empty). -/
def headBatchable (env : Env) (f : FunId) (b : List FunId) : Bool :=
  match b.head? with
  | some h => AreBatchable env f h
  | none => false

/-- The linear scan of Schedule (lines 229-238): append f to the first
regular bucket whose front is batchable with it, else open a new bucket. -/
def insertRegular (env : Env) (f : FunId) :
    List (List FunId) → List (List FunId)
  | [] => [[f]]
  | b :: bs =>
      if headBatchable env f b then (b ++ [f]) :: bs
      else b :: insertRegular env f bs

/-- Schedule (lines 217-240): barrier ops (op code BarrierOp, which is NoOp)
go on the barrier list; all other view ops go on the view list; every other
op is appended to the first batchable regular bucket or opens a new one. -/
def Schedule (env : Env) (s : ReadyOps) (f : FunId) : ReadyOps :=
  let op := (env.funOf f).op
  if op = PrimitiveOpType.BarrierOp then
    { s with barrierOps := s.barrierOps ++ [f] }
  else if IsViewOp op then
    { s with viewOps := s.viewOps ++ [f] }
  else
    { s with regularOps := insertRegular env f s.regularOps }

/-- NotifyInputAvailable (lines 242-250), acting on the pending-inputs
counters (m_pendingInputs lives on the Function; the model keeps all
counters in one map).  Raises the LogicError of line 245 when the counter is
already at or below zero; otherwise decrements, and schedules the function
exactly when the counter reaches zero. -/
def NotifyInputAvailable (env : Env) (pending : FunId → Int) (s : ReadyOps)
    (f : FunId) : Except String ((FunId → Int) × ReadyOps) :=
  if pending f ≤ 0 then
    .error "NotifyInputAvailable: pending inputs already 0 yet we are executing it"
  else
    let n := pending f - 1
    let pending := upd pending f n
    if n = 0 then .ok (pending, Schedule env s f) else .ok (pending, s)

/-- The argmax loop of pop_best (lines 263-268): starting from index 0, a
later bucket is preferred only when strictly larger, so the earliest bucket
of maximal size wins. -/
def bestIndexGo : List (List FunId) → Nat → Nat → Nat → Nat
  | [], _, best, _ => best
  | b :: bs, i, best, bestSize =>
      if b.length > bestSize then bestIndexGo bs (i + 1) i b.length
      else bestIndexGo bs (i + 1) best bestSize

/-- Index of the regular bucket pop_best selects. -/
def bestIndex (buckets : List (List FunId)) : Nat :=
  match buckets with
  | [] => 0
  | b :: bs => bestIndexGo bs 1 0 b.length

/-- pop_best (lines 256-276): the whole view list if non-empty (moving it
clears it), else the largest regular bucket (removed from the bucket list),
else the whole barrier list. -/
def pop_best (s : ReadyOps) : List FunId × ReadyOps :=
  if !s.viewOps.isEmpty then
    (s.viewOps, { s with viewOps := [] })
  else if !s.regularOps.isEmpty then
    let k := bestIndex s.regularOps
    ((s.regularOps.getD k []), { s with regularOps := s.regularOps.eraseIdx k })
  else
    (s.barrierOps, { s with barrierOps := [] })

/-! ## Engine state -/

/-- The complete mutable state the engine works on: the set of
PrimitiveFunctions (FunId = index; the engine appends newly synthesized
Splice/Slice/batched functions at the end), the per-variable data fields,
the per-function pending-inputs counters, the scheduler, the arena, and a
kernel-invocation counter (the instrumentation the spec attaches to the
collaborator interface).  leafSparse records which leaf values use sparse
storage (a property of the external tensors).  nextVar is the supply of
fresh data-fields identities for outputs of synthesized functions. -/
structure EngineState where
  funs : List GFun
  leafSparse : VarId → Bool
  kindOf : VarId → VarKind
  shapeOf : VarId → List Nat
  needsGrad : VarId → Bool
  ownerOf : VarId → Option FunId
  value : VarId → Option TensorExpr
  gradient : VarId → Option TensorExpr
  lazyIndex : VarId → Option (FunId × Option Nat)
  visited : VarId → Bool
  consumers : VarId → Consumers
  pending : FunId → Int
  sched : ReadyOps
  arena : ArenaState
  kernelCount : Nat
  nextVar : VarId

/-- Resolve a FunId. -/
def funLookup (s : EngineState) (f : FunId) : GFun := s.funs.getD f default

/-- The scheduler lookup environment of a state. -/
def envOf (s : EngineState) : Env := ⟨funLookup s, s.shapeOf⟩

/-! ## Forward: lazy value resolution and memoized execution -/

/-- LazilyIndexedValue (lines 336-350): return the value of a variable,
realizing it lazily when it is an index into a batched op.  The none index
is the SIZE_MAX sentinel meaning take the whole producer output.  The
error is the fail_if of line 341.  Fuel exhaustion is a model artifact
for the recursion. -/
def lazilyIndexedValue : Nat → EngineState → VarId →
    Except String (TensorExpr × EngineState)
  | 0, _, _ => .error "fuel exhausted"
  | fuel + 1, s, v =>
    match s.value v with
    | some t => .ok (t, s)
    | none =>
      match s.lazyIndex v with
      | none => .error "variable unexpectedly has no value yet, nor is it a slice view into a batched op"
      | some (f, idx) => do
          let r ← lazilyIndexedValue fuel s (funLookup s f).output
          let t := match idx with
            | none => r.1
            | some i => TensorExpr.indexLastAxis r.1 i
          .ok (t, { r.2 with value := upd r.2.value v (some t) })

/-- The input-fetch loop of MemoizeKnowableValueInArena (lines 361-363). -/
def resolveInputs : Nat → EngineState → List VarId →
    Except String (List TensorExpr × EngineState)
  | _, s, [] => .ok ([], s)
  | fuel, s, v :: vs => do
      let r ← lazilyIndexedValue fuel s v
      let rs ← resolveInputs fuel r.2 vs
      .ok (r.1 :: rs.1, rs.2)

/-- MemoizeKnowableValueInArena (lines 354-391): fetch all input values,
allocate the output in the arena unless the op is free, invoke the
ComputeKnowableValue collaborator and implant the result as the output value.
The single-output check of line 356 holds by construction (GFun carries one
output).  Returns the output variable. -/
def memoizeKnowableValueInArena (fuel : Nat) (s : EngineState) (f : FunId)
    (isFree : Bool) : Except String (VarId × EngineState) := do
  let fn := funLookup s f
  let r ← resolveInputs fuel s fn.inputs
  let s := r.2
  let outputShape := s.shapeOf fn.output
  let s := if isFree then s
    else { s with arena := (AllocateTensorInArena s.arena outputShape).2 }
  let t := TensorExpr.kernel fn.op r.1 fn.attributes outputShape
  .ok (fn.output,
    { s with value := upd s.value fn.output (some t),
             kernelCount := s.kernelCount + 1 })

/-- The external Function::RawPrimitiveFunction factory: creates a new
PrimitiveFunction with the given op, inputs, output shape and attributes,
and a fresh output variable owned by it (pending-inputs initialized to -1
by the constructor, per the comment at line 288).  The fresh output needs a
gradient iff one of the inputs does (framework semantics of output
variables). -/
def rawPrimitiveFunction (s : EngineState) (op : PrimitiveOpType)
    (inputs : List VarId) (outputShape : List Nat) (attrs : AttrDict) :
    FunId × EngineState :=
  let fid := s.funs.length
  let out := s.nextVar
  (fid,
   { s with
     funs := s.funs ++ [⟨op, inputs, out, attrs⟩],
     kindOf := upd s.kindOf out VarKind.Output,
     shapeOf := upd s.shapeOf out outputShape,
     needsGrad := upd s.needsGrad out (inputs.any s.needsGrad),
     ownerOf := upd s.ownerOf out (some fid),
     value := upd s.value out none,
     gradient := upd s.gradient out none,
     lazyIndex := upd s.lazyIndex out none,
     visited := upd s.visited out false,
     consumers := upd s.consumers out Consumers.empty,
     pending := upd s.pending fid (-1),
     nextVar := s.nextVar + 1 })

/-- ResetPendingToIdle (lines 393-398). -/
def resetPendingToIdle (s : EngineState) (f : FunId) :
    Except String EngineState :=
  if s.pending f ≠ 0 then
    .error "ResetPendingToIdle: pendingINputs is not 0, so we should not have gotten here"
  else .ok { s with pending := upd s.pending f (-1) }

/-! ## Forward: traversal (TraverseFunctionTreeForward, lines 289-333)

The C++ function and its inner for-loop over the inputs are mutually
recursive; to keep the definition structurally recursive on fuel (so that
concrete runs reduce definitionally) both are folded into one function over
a call descriptor. -/

/-- A call into the traversal: either visiting a variable, or running the
inputs loop of lines 310-328 for function f from a given input position,
carrying the pendingInputs count accumulated so far. -/
inductive FwdCall where
  | var (v : VarId)
  | inputsLoop (f : FunId) (us : List VarId) (i : Nat) (acc : Nat)

/-- The traversal step function; for an inputsLoop call the returned Nat is
the final pendingInputs count (it is 0 for var calls). -/
def travStep : Nat → EngineState → FwdCall →
    Except String (Nat × EngineState)
  | 0, _, _ => .error "fuel exhausted"
  | fuel + 1, s, FwdCall.var v =>
      if (s.value v).isSome then
        .error "TraverseFunctionTreeForward() should not have been called on variables that already have a value."
      else if s.kindOf v = VarKind.Input ∨ s.kindOf v = VarKind.Placeholder then
        .error "Value() depends on Input or Placeholder, it is not knowable."
      else if s.kindOf v = VarKind.Parameter ∨ s.kindOf v = VarKind.Constant then
        -- var.Value() materializes the leaf value (external collaborator)
        .ok (0, { s with value := upd s.value v (some (TensorExpr.leaf v (s.shapeOf v))) })
      else
        match s.ownerOf v with
        | none => .error "owner function expired"
        | some f =>
          if s.pending f ≠ -1 then .ok (0, s) -- already visited
          else do
            let r ← travStep fuel s (FwdCall.inputsLoop f (funLookup s f).inputs 0 0)
            let pendingInputs := r.1
            let s := { r.2 with pending := upd r.2.pending f (Int.ofNat pendingInputs) }
            -- if none pending then the operation is ready (lines 331-332)
            if pendingInputs = 0 then
              .ok (0, { s with sched := Schedule (envOf s) s.sched f })
            else .ok (0, s)
  | _ + 1, s, FwdCall.inputsLoop _ [] _ acc => .ok (acc, s)
  | fuel + 1, s, FwdCall.inputsLoop f (u :: us) i acc =>
      if (s.value u).isSome then
        travStep fuel s (FwdCall.inputsLoop f us (i + 1) acc)
      else do
        let r ← travStep fuel s (FwdCall.var u)
        let s := r.2
        if (s.value u).isSome then
          -- in case of a Parameter, we now may have a value (line 318)
          travStep fuel s (FwdCall.inputsLoop f us (i + 1) acc)
        else
          -- record ourselves as a consumer of the input (lines 320-325)
          let s := { s with consumers := upd s.consumers u ((s.consumers u).push (f, i)) }
          travStep fuel s (FwdCall.inputsLoop f us (i + 1) (acc + 1))

/-- TraverseFunctionTreeForward. -/
def traverseForward (fuel : Nat) (s : EngineState) (v : VarId) :
    Except String EngineState :=
  (travStep fuel s (FwdCall.var v)).map (·.2)

/-! ## Forward: batched execution (ExecuteBatchedOpAndUpdateSchedule,
lines 415-656) -/

/-- The naive-mode decision of lines 427-432: execute individually when the
op is free (a view op), or it is a Times whose second operand holds a sparse
value, or it is a Splice, or the batch has a single element. -/
def doNaively (s : EngineState) (f0 : FunId) (batchSize : Nat) : Bool :=
  let fn0 := funLookup s f0
  IsViewOp fn0.op ||
  (fn0.op == PrimitiveOpType.Times &&
    (match fn0.inputs.get? 1 with
     | some u =>
        (match s.value u with
         | some t => t.isSparse s.leafSparse
         | none => false)
     | none => false)) ||
  fn0.op == PrimitiveOpType.Splice ||
  batchSize == 1

/-- The naive-mode loop of lines 441-456: compute every op of the batch
individually, then reset its pending counter to idle. -/
def execNaiveLoop (fuel : Nat) : EngineState → List FunId → Bool →
    Except String EngineState
  | s, [], _ => .ok s
  | s, f :: fs, isFree => do
      let r ← memoizeKnowableValueInArena fuel s f isFree
      let s ← resetPendingToIdle r.2 f
      execNaiveLoop fuel s fs isFree

/-- std::vector resize semantics used at lines 570-571: truncate or pad with
the fill element up to length n. -/
def listResize (l : List Nat) (n : Nat) (fill : Nat) : List Nat :=
  l.take n ++ List.replicate (n - l.length) fill

/-- The inputs of the batched ops at one input position (the spliceInputs
buffer of lines 488-527). -/
def gatherInputsAt (s : EngineState) (ops : List FunId) (i : Nat) :
    List VarId :=
  ops.map (fun f => (funLookup s f).inputs.getD i 0)

/-- The allSame test of lines 499-510: every operand is the same data-fields
object as the first, or carries the same lazy-index pair as the first
(when the first has one). -/
def checkAllSame (s : EngineState) (v0 : VarId)
    (lz0 : Option (FunId × Option Nat)) (us : List VarId) : Bool :=
  us.all (fun u => u == v0 || (lz0.isSome && s.lazyIndex u == lz0))

/-- The allConsecutiveSlices test of lines 500-522: the first operand is a
real slice (producer, base) and operand j is the slice (producer, base + j)
of the same producer.  Returns the producer and base when it holds. -/
def consecutiveBase (s : EngineState) (lz0 : Option (FunId × Option Nat))
    (us : List VarId) : Option (FunId × Nat) :=
  match lz0 with
  | some (from0, some begin0) =>
      if (List.range us.length).all
          (fun j => s.lazyIndex (us.getD j 0) == some (from0, some (begin0 + j)))
      then some (from0, begin0)
      else none
  | _ => none

/-- Build the fused input for one input position i (lines 484-591):
AllSame passes the single operand through; consecutive slices reuse the
producer output whole, or synthesize a free Slice function over it;
otherwise a Splice function is synthesized and executed.  Returns
m_batchedInputs[i] and whether this position contributed a batched input. -/
def processPosition (fuel : Nat) (s : EngineState) (ops : List FunId)
    (f0 : FunId) (maxRank : Nat) (batchSize : Nat) (i : Nat) :
    Except String (VarId × Bool × EngineState) :=
  let us := gatherInputsAt s ops i
  let v0 := (funLookup s f0).inputs.getD i 0
  let lz0 := s.lazyIndex v0
  if checkAllSame s v0 lz0 us then
    -- all ops share the same operand: no need to batch (lines 529-531)
    .ok (us.headD v0, false, s)
  else
    match consecutiveBase s lz0 us with
    | some (from0, begin0) =>
        -- consecutive: short-circuit as a slice view (lines 533-564)
        let out := (funLookup s from0).output
        if (s.value out).isNone then .error "value not yet available??"
        else
          let fromDims := s.shapeOf out
          let axis := fromDims.length - 1
          if begin0 = 0 ∧ batchSize = fromDims.getD axis 0 then
            -- full range: just take the producer output (lines 541-542)
            .ok (out, true, s)
          else do
            -- sub-range: synthesize a free Slice function (lines 543-562)
            let outputShape := fromDims.set axis batchSize
            let attrs : AttrDict :=
              [("axis", (axis : Int)), ("beginIndex", (begin0 : Int)),
               ("endIndex", ((begin0 + batchSize : Nat) : Int))]
            let rf := rawPrimitiveFunction s PrimitiveOpType.Slice [out] outputShape attrs
            let r ← memoizeKnowableValueInArena fuel rf.2 rf.1 true
            .ok (r.1, true, r.2)
    | none => do
        -- general case: synthesize a Splice function (lines 565-588)
        let r0 ← lazilyIndexedValue fuel s (us.headD 0)
        let outputShape := listResize r0.1.shape maxRank 1 ++ [batchSize]
        let rf := rawPrimitiveFunction r0.2 PrimitiveOpType.Splice us outputShape
          [("axis", (maxRank : Int))]
        let r ← memoizeKnowableValueInArena fuel rf.2 rf.1 false
        .ok (r.1, true, r.2)

/-- The loop over input positions (lines 484-591), accumulating
m_batchedInputs and the anyBatchedInputs flag. -/
def positionsLoop (fuel : Nat) (ops : List FunId) (f0 : FunId)
    (maxRank : Nat) (batchSize : Nat) : EngineState → List Nat →
    List VarId → Bool → Except String (List VarId × Bool × EngineState)
  | s, [], acc, anyB => .ok (acc, anyB, s)
  | s, i :: is, acc, anyB => do
      let r ← processPosition fuel s ops f0 maxRank batchSize i
      positionsLoop fuel ops f0 maxRank batchSize r.2.2 is (acc ++ [r.1])
        (anyB || r.2.1)

/-- maxRank over the batched input positions (lines 472-480). -/
def maxRankOf (s : EngineState) (f0 : FunId) (i0 : Nat) : Nat :=
  ((funLookup s f0).inputs.drop i0).foldl
    (fun m v => max m (s.shapeOf v).length) 0

/-- The implant loop of lines 619-633: give every original output a
lazy-index into the batched op (an incrementing slice index, or the
SIZE_MAX sentinel when no input was actually batched) and reset the pending
counters to idle. -/
def implantLoop : EngineState → FunId → Bool → List FunId → Nat →
    Except String EngineState
  | s, _, _, [], _ => .ok s
  | s, bop, anyB, f :: fs, j => do
      let out := (funLookup s f).output
      let lz := some (bop, if anyB then some j else none)
      let s := { s with lazyIndex := upd s.lazyIndex out lz }
      let s ← resetPendingToIdle s f
      implantLoop s bop anyB fs (j + 1)

/-- One NotifyInputAvailable call, acting on the engine state. -/
def notifyStep (s : EngineState) (c : FunId × Nat) :
    Except String EngineState := do
  let r ← NotifyInputAvailable (envOf s) s.pending s.sched c.1
  .ok { s with pending := r.1, sched := r.2 }

/-- Notify a list of consumers in order. -/
def notifyList : EngineState → List (FunId × Nat) →
    Except String EngineState
  | s, [] => .ok s
  | s, c :: cs => do
      let s ← notifyStep s c
      notifyList s cs

/-- The consumer-notification loop of lines 640-655: for every executed op,
notify the consumers recorded on its output, then clear the consumer
list. -/
def notifyOutputs : EngineState → List FunId → Except String EngineState
  | s, [] => .ok s
  | s, f :: fs => do
      let out := (funLookup s f).output
      let cs := s.consumers out
      let s ← match cs.first with
        | some c => notifyStep s c
        | none => .ok s
      let s ← notifyList s cs.second
      let s := { s with consumers := upd s.consumers out Consumers.empty }
      notifyOutputs s fs

/-- The fused branch of ExecuteBatchedOpAndUpdateSchedule (lines 467-636):
build the fused inputs position by position, create and execute the single
fused op, and implant the lazy-index results. -/
def execFusedBranch (fuel : Nat) (s : EngineState) (ops : List FunId)
    (f0 : FunId) : Except String EngineState := do
  let fn0 := funLookup s f0
  let op := fn0.op
  let batchSize := ops.length
  let numArgs := fn0.inputs.length
  let isTimes := op = PrimitiveOpType.Times
  let i0 := if isTimes then 1 else 0
  let maxRank := maxRankOf s f0 i0
  -- Times: the matrix must be identical, pass it through (lines 482-483)
  let batched0 := if i0 = 1 then [fn0.inputs.getD 0 0] else []
  let rp ← positionsLoop fuel ops f0 maxRank batchSize s
    (List.range' i0 (numArgs - i0)) batched0 false
  let batchedInputs := rp.1
  let anyB := rp.2.1
  let s := rp.2.2
  let unbatchedOutputShape := s.shapeOf fn0.output
  -- create the batched op (lines 594-615); AppendAxis pads the shape
  -- to maxRank and appends the batch axis (collaborator
  -- NDShape::AppendAxis, modeled from the spec)
  let rb :=
    if anyB then
      rawPrimitiveFunction s op batchedInputs
        (listResize unbatchedOutputShape maxRank 1 ++ [batchSize])
        fn0.attributes
    else
      -- all inputs identical: compute it only once (lines 606-615)
      rawPrimitiveFunction s op fn0.inputs unbatchedOutputShape
        fn0.attributes
  let r ← memoizeKnowableValueInArena fuel rb.2 rb.1 false
  implantLoop r.2 rb.1 anyB ops 0

/-- ExecuteBatchedOpAndUpdateSchedule (lines 415-656): either the naive
loop or the fused branch, followed by consumer notification.  The batch is
never empty (pop_best only hands out non-empty lists); the statistics
counter m_numBatchedLaunches is not modeled. -/
def executeBatch (fuel : Nat) (s : EngineState) (ops : List FunId) :
    Except String EngineState :=
  match ops with
  | [] => .error "empty batch"
  | f0 :: _ => do
    let s ←
      if doNaively s f0 ops.length then
        execNaiveLoop fuel s ops (IsViewOp (funLookup s f0).op)
      else
        execFusedBranch fuel s ops f0
    notifyOutputs s ops

/-- The scheduling loop of GetValue (lines 1002-1008). -/
def forwardLoop : Nat → EngineState → Except String EngineState
  | 0, _ => .error "fuel exhausted"
  | fuel + 1, s =>
      if s.sched.isEmpty then .ok s
      else do
        let p := pop_best s.sched
        let s ← executeBatch fuel { s with sched := p.2 } p.1
        forwardLoop fuel s

/-- GetValue (lines 989-1013): return the value immediately when present;
otherwise traverse, run the scheduling loop, and resolve the (possibly
lazy) value.  AssertTreeStateGetValue (lines 953-970) compiles to a no-op
in this source (its body is under the dead #else branch) and is not
modeled. -/
def getValue (fuel : Nat) (s : EngineState) (v : VarId) :
    Except String (TensorExpr × EngineState) :=
  match s.value v with
  | some t => .ok (t, s)
  | none => do
      let s ← traverseForward fuel s v
      let s ← forwardLoop fuel s
      lazilyIndexedValue fuel s v

/-! ## Backward: consumer discovery (DetermineConsumersForBackward,
lines 711-777)

The two mutually recursive overloads (on a Variable and on a Function) and
the inner loop over the inputs of a function are folded into one structurally
fuel-recursive function over a call descriptor, as for the forward
traversal. -/

/-- A call into the backward consumer-discovery pass. -/
inductive BwdCall where
  | var (v : VarId)
  | fn (f : FunId)
  | loop (f : FunId) (us : List VarId) (i : Nat)

/-- DetermineConsumersForBackward. -/
def dcbStep : Nat → EngineState → BwdCall → Except String EngineState
  | 0, _, _ => .error "fuel exhausted"
  | fuel + 1, s, BwdCall.var v =>
      let s := { s with visited := upd s.visited v false }
      if s.kindOf v = VarKind.Parameter ∨ s.kindOf v = VarKind.Constant then
        .ok s -- reached a leaf
      else if (s.value v).isNone then
        .error "variable has no value yet??"
      else if !s.needsGrad v then
        .error "unexpectedly encountered a node with m_needsGradient=false??"
      else if s.kindOf v = VarKind.Input ∨ s.kindOf v = VarKind.Placeholder then
        .error "unexpectedly encountered an Input or a Placeholder??"
      else
        -- short-circuit into the batched op when the variable is a lazy
        -- index (lines 723-734)
        match s.lazyIndex v with
        | some (f, _) => dcbStep fuel s (BwdCall.fn f)
        | none =>
          match s.ownerOf v with
          | some f => dcbStep fuel s (BwdCall.fn f)
          | none => .error "owner function expired"
  | fuel + 1, s, BwdCall.fn f =>
      if s.pending f = -2 then .error "unexpectedly encountered a cyclic graph??"
      else if s.pending f ≠ -1 then .ok s -- already visited
      else if (funLookup s f).op = PrimitiveOpType.StopGradient then
        .error "unexpectedly encountered a StopGradient, which should have propagated m_needsGradient=false upwards"
      else do
        let s := { s with pending := upd s.pending f (-2) }
        let s ← dcbStep fuel s (BwdCall.loop f (funLookup s f).inputs 0)
        .ok { s with pending := upd s.pending f 0 } -- used as a visited flag
  | _ + 1, s, BwdCall.loop _ [] _ => .ok s
  | fuel + 1, s, BwdCall.loop f (u0 :: us) i =>
      -- a lazy-index input is redirected to its lazy source (lines 753-755)
      let u := match s.lazyIndex u0 with
        | some (p, _) => (funLookup s p).output
        | none => u0
      let s := { s with visited := upd s.visited u false }
      if !s.needsGrad u then
        dcbStep fuel s (BwdCall.loop f us (i + 1)) -- skip: receives no gradient
      else do
        -- reset the gradient, record the consumer, recurse (lines 761-774)
        let s := { s with gradient := upd s.gradient u none }
        let s := { s with consumers := upd s.consumers u ((s.consumers u).push (f, i)) }
        let s ← dcbStep fuel s (BwdCall.var u)
        dcbStep fuel s (BwdCall.loop f us (i + 1))

/-! ## Backward: lazy gradient creation
(LazilyCreateLazilyIndexedGradient, lines 662-704) -/

/-- LazilyCreateLazilyIndexedGradient: lazily create m_gradient, which may
live inside a batched op.  Returns beta = 0 if the gradient was newly
created (the kernel must overwrite), 1 if it already existed (accumulate);
beta is the double value of the C++ code, here an Int since only 0 and 1
occur.  When the variable is a real slice into a producer whose gradient
was just created, the whole producer gradient is explicitly zeroed
(SetValue(0.0f), modeled by wrapping the stored tensor) and beta proceeds
as 1. -/
def ensureGradient : Nat → EngineState → VarId →
    Except String (Int × EngineState)
  | 0, _, _ => .error "fuel exhausted"
  | fuel + 1, s, v =>
    match s.gradient v with
    | some _ => .ok (1, s) -- if gradient exists then return it
    | none =>
      match s.lazyIndex v with
      | some (from0, index) => do
          let fromOutput := (funLookup s from0).output
          let r ← ensureGradient fuel s fromOutput
          let beta := r.1
          let s := r.2
          match s.gradient fromOutput with
          | none => .error "gradient unexpectedly absent after recursion"
          | some fromGradient =>
            match index with
            | none =>
                -- SIZE_MAX sentinel: share the whole producer gradient
                .ok (beta, { s with gradient := upd s.gradient v (some fromGradient) })
            | some i =>
                if beta = 0 then
                  -- gradient is fresh: explicitly reset all (lines 686-690)
                  let zg := TensorExpr.setConst 0 fromGradient
                  let s := { s with gradient := upd s.gradient fromOutput (some zg) }
                  .ok (1, { s with gradient := upd s.gradient v (some (TensorExpr.indexLastAxis zg i)) })
                else
                  .ok (beta, { s with gradient := upd s.gradient v (some (TensorExpr.indexLastAxis fromGradient i)) })
      | none =>
          -- create a new gradient tensor in the arena (lines 696-701)
          let ra := AllocateTensorInArena s.arena (s.shapeOf v)
          let s := { s with arena := ra.2 }
          .ok (0, { s with gradient := upd s.gradient v (some (TensorExpr.arenaBuf ra.1)) })

/-! ## Backward: per-consumer backprop and aggregation (lines 793-950) -/

/-- BackpropTo (lines 918-950): sanity checks, gradient creation for the
target input, then one reverse-kernel collaborator call.  The kernel
accumulates into the existing gradient tensor in place (beta semantics);
the tensor object held in the slot does not change, so only the kernel
counter advances. -/
def backpropTo (fuel : Nat) (s : EngineState) (f : FunId) (index : Nat) :
    Except String EngineState :=
  let fn := funLookup s f
  let input := fn.inputs.getD index 0
  if !s.needsGrad input then
    .error "function unexpectedly does not need a gradient"
  else if (s.lazyIndex fn.output).isSome then
    .error "unexpectedly ran into a function that does not own its output"
  else if (s.value fn.output).isNone then
    .error "unexpectedly ran into a function that has no m_value yet??"
  else if (s.gradient fn.output).isNone then
    .error "unexpectedly ran into a function that has no m_gradient yet??"
  else if fn.inputs.any (fun u => (s.value u).isNone) then
    .error "unexpectedly ran into a function that has no m_value yet??"
  else do
    let r ← ensureGradient fuel s input
    .ok { r.2 with kernelCount := r.2.kernelCount + 1 }

/-- The bucket test of DetermineBucket (lines 800-816): backprop into the
matrix argument of a Times goes into the matrix-weight bucket; everything
else into the others bucket (the PlaceItem and ReduceSum buckets are
declared but never filled). -/
def isMatrixWeightConsumer (s : EngineState) (c : FunId × Nat) : Bool :=
  (funLookup s c.1).op == PrimitiveOpType.Times && c.2 == 0

/-- A call into AggregateGradientFromAllConsumers (lines 858-912): visiting
a variable, realizing the consumer outputs (lines 873-878), or running a
list of BackpropTo calls (BackpropToMatrixWeight takes its active #if 1
branch, a plain per-consumer loop, lines 824-826). -/
inductive AggCall where
  | var (v : VarId)
  | outs (cs : List (FunId × Nat))
  | backs (cs : List (FunId × Nat))

/-- AggregateGradientFromAllConsumers.  The fail_if of line 896 checks
that the reused global bucket buffers were cleaned up; the model rebuilds
the buckets as fresh lists, so that check has nothing to observe. -/
def aggStep : Nat → EngineState → AggCall → Except String EngineState
  | 0, _, _ => .error "fuel exhausted"
  | fuel + 1, s, AggCall.var v =>
      if s.visited v then .ok s
      else
        match (s.consumers v).first with
        | none => .ok s -- reached a leaf
        | some c =>
          if !s.needsGrad v then
            .error "backprop into variable that does not need gradient"
          else do
            let s := { s with visited := upd s.visited v true }
            let s ← aggStep fuel s (AggCall.outs (c :: (s.consumers v).second))
            if s.kindOf v ≠ VarKind.Parameter ∧ (s.gradient v).isSome then
              .error "non-Parameter variable unexpectedly already has a gradient"
            else if (s.consumers v).second.isEmpty then
              -- fast path: only one consumer, nothing to batch (lines 888-892)
              backpropTo fuel s c.1 c.2
            else do
              -- optimized path: sort consumers into buckets (lines 894-911)
              let all := c :: (s.consumers v).second
              let s ← aggStep fuel s (AggCall.backs (all.filter (isMatrixWeightConsumer s)))
              aggStep fuel s (AggCall.backs (all.filter (fun cc => !isMatrixWeightConsumer s cc)))
  | _ + 1, s, AggCall.outs [] => .ok s
  | fuel + 1, s, AggCall.outs (c :: cs) => do
      let s ← aggStep fuel s (AggCall.var (funLookup s c.1).output)
      aggStep fuel s (AggCall.outs cs)
  | _ + 1, s, AggCall.backs [] => .ok s
  | fuel + 1, s, AggCall.backs (c :: cs) => do
      let s ← backpropTo fuel s c.1 c.2
      aggStep fuel s (AggCall.backs cs)

/-! ## Backward: the public entry (Backward, lines 1021-1075) -/

/-- The implant of the first gradient (lines 1038-1039): the root gradient
slot is overwritten with a tensor freshly allocated in the arena with the
root shape, set to all ones by SetValue(1.0f). -/
def backwardSeed (s : EngineState) (root : VarId) : EngineState :=
  let ra := AllocateTensorInArena s.arena (s.shapeOf root)
  let s := { s with arena := ra.2 }
  { s with gradient := upd s.gradient root (some (TensorExpr.setConst 1 (TensorExpr.arenaBuf ra.1))) }

/-- The user-buffer loop of lines 1042-1047: caller-supplied gradient
tensors are zeroed in place and implanted; null entries clear the slot (the
engine will create the gradient inside). -/
def implantUserGradients : EngineState → List (VarId × Option TensorExpr) →
    EngineState
  | s, [] => s
  | s, (p, buf) :: rest =>
      let g := match buf with
        | some t => some (TensorExpr.setConst 0 t)
        | none => none
      implantUserGradients { s with gradient := upd s.gradient p g } rest

/-- The backprop loop of lines 1052-1061.  The two logic_error(...)
statements at lines 1056-1059 construct std::logic_error temporaries
without throwing them; they are no-ops at run time and are not modeled as
failures. -/
def aggregateParams (fuel : Nat) : EngineState →
    List (VarId × Option TensorExpr) → Except String EngineState
  | s, [] => .ok s
  | s, (p, _) :: rest => do
      let s ← aggStep fuel s (AggCall.var p)
      aggregateParams fuel s rest

/-- The result implant of lines 1064-1065: the map the user passed in
receives the gradient slots. -/
def collectGradients (s : EngineState)
    (grads : List (VarId × Option TensorExpr)) :
    List (VarId × Option TensorExpr) :=
  grads.map (fun pb => (pb.1, s.gradient pb.1))

/-- The workaround cleanup of lines 1068-1074: clear the consumer lists of
the requested parameters (and only those). -/
def clearParamConsumers : EngineState → List (VarId × Option TensorExpr) →
    EngineState
  | s, [] => s
  | s, (p, _) :: rest =>
      clearParamConsumers { s with consumers := upd s.consumers p Consumers.empty } rest

/-- The tail of Backward after the root gradient has been seeded: the
user-buffer implant, the per-parameter aggregation, the result collection
and the workaround cleanup (lines 1042-1074). -/
def backwardFinish (fuel : Nat) (grads : List (VarId × Option TensorExpr))
    (s : EngineState) :
    Except String (EngineState × List (VarId × Option TensorExpr)) := do
  let s := implantUserGradients s grads
  let s ← aggregateParams fuel s grads
  .ok (clearParamConsumers s grads, collectGradients s grads)

/-- Backward after the forward pass: consumer discovery, root-gradient
seeding, then backwardFinish (lines 1031-1074). -/
def backwardPost (fuel : Nat) (root : VarId)
    (grads : List (VarId × Option TensorExpr)) (s : EngineState) :
    Except String (EngineState × List (VarId × Option TensorExpr)) := do
  let s ← dcbStep fuel s (BwdCall.var root)
  backwardFinish fuel grads (backwardSeed s root)

/-- Backward (lines 1021-1075): run the forward computation if not yet done,
then the backward pipeline.  The m_needsGradient check of line 1024
constructs a logic_error temporary without throwing it (a no-op), so it is
not modeled as a failure. -/
def Backward (fuel : Nat) (s : EngineState) (root : VarId)
    (grads : List (VarId × Option TensorExpr)) :
    Except String (EngineState × List (VarId × Option TensorExpr)) := do
  let r ← getValue fuel s root
  backwardPost fuel root grads r.2

/-! # Theorems: arena allocator properties (claim C7) -/

/-- Invariant of the arena state: the current block identity (when present)
was drawn from the fresh-identity supply.  It holds for every initial state
whose supply starts beyond the current block (in particular for the
all-empty state) and is preserved by allocation. -/
def ArenaInv (st : ArenaState) : Prop :=
  ∀ b, st.currentArena = some b → b < st.nextId

/-- Every region handed out so far fits the bookkeeping of the state: its
block is an already-issued identity, and a region of the current block lies
entirely below the used mark. -/
def RegionsOk (st : ArenaState) (rs : List ArenaResult) : Prop :=
  ∀ r ∈ rs, ∀ b s1 n1 sh, r = ArenaResult.region b s1 n1 sh →
    b < st.nextId ∧ (st.currentArena = some b → s1 + n1 ≤ st.used)

/-- Any two regions of the same block are disjoint, the earlier one lying
entirely below the later one. -/
def SameBlockOrdered (rs : List ArenaResult) : Prop :=
  ∀ i j bi si ni shi bj sj nj shj, i < j →
    rs.get? i = some (ArenaResult.region bi si ni shi) →
    rs.get? j = some (ArenaResult.region bj sj nj shj) →
    bi = bj → si + ni ≤ sj

theorem arena_step_ok (st : ArenaState) (sh : List Nat)
    (acc : List ArenaResult) (hInv : ArenaInv st) (hR : RegionsOk st acc)
    (hS : SameBlockOrdered acc) :
    ArenaInv (AllocateTensorInArena st sh).2 ∧
    RegionsOk (AllocateTensorInArena st sh).2 (acc ++ [(AllocateTensorInArena st sh).1]) ∧
    SameBlockOrdered (acc ++ [(AllocateTensorInArena st sh).1]) := by
  have happend : ∀ (r r' : ArenaResult) i, (acc ++ [r']).get? i = some r →
      i < acc.length → acc.get? i = some r := by
    intro r r' i hget hi
    rwa [List.get?_append hi] at hget
  have hlen : ∀ (r' : ArenaResult) i, (acc ++ [r']).get? i ≠ none →
      i ≤ acc.length := by
    intro r' i hget
    by_contra hgt
    push_neg at hgt
    have : (acc ++ [r']).length ≤ i := by
      simpa [List.length_append] using hgt
    exact hget (List.get?_eq_none.mpr this)
  unfold AllocateTensorInArena
  by_cases hbig : shapeTotalSize sh > ARENASIZE
  · simp only [hbig, if_pos]
    refine ⟨hInv, ?_, ?_⟩
    · intro r hr b s1 n1 shp hreq
      rcases List.mem_append.mp hr with h | h
      · exact hR r h b s1 n1 shp hreq
      · simp only [List.mem_singleton] at h
        subst h
        exact absurd hreq (by simp)
    · intro i j bi si ni shi bj sj nj shj hij hi hj hbb
      have hjlen : j ≤ acc.length := hlen _ j (by rw [hj]; simp)
      rcases lt_or_eq_of_le hjlen with hjlt | hjeq
      · exact hS i j bi si ni shi bj sj nj shj hij
          (happend _ _ i hi (lt_trans hij hjlt)) (happend _ _ j hj hjlt) hbb
      · subst hjeq
        rw [List.get?_concat_length] at hj
        cases hj
  · simp only [hbig, if_neg, if_false]
    have hsmall : shapeTotalSize sh ≤ ARENASIZE := le_of_not_lt hbig
    -- common reasoning for the two branches that open a fresh block
    have freshCase : ∀ (st' : ArenaState) (r' : ArenaResult),
        st' = ⟨some st.nextId, shapeTotalSize sh, st.nextId + 1⟩ →
        r' = ArenaResult.region st.nextId 0 (shapeTotalSize sh) sh →
        ArenaInv st' ∧ RegionsOk st' (acc ++ [r']) ∧ SameBlockOrdered (acc ++ [r']) := by
      intro st' r' hst hr
      subst hst; subst hr
      refine ⟨?_, ?_, ?_⟩
      · intro b hb
        simp only at hb
        cases hb
        exact Nat.lt_succ_self _
      · intro r hr b s1 n1 shp hreq
        rcases List.mem_append.mp hr with h | h
        · have := hR r h b s1 n1 shp hreq
          refine ⟨Nat.lt_succ_of_lt this.1, ?_⟩
          intro hcb
          simp only at hcb
          cases hcb
          exact absurd this.1 (lt_irrefl _)
        · simp only [List.mem_singleton] at h
          subst h
          cases hreq
          exact ⟨Nat.lt_succ_self _, fun _ => by simp⟩
      · intro i j bi si ni shi bj sj nj shj hij hi hj hbb
        have hjlen : j ≤ acc.length := hlen _ j (by rw [hj]; simp)
        rcases lt_or_eq_of_le hjlen with hjlt | hjeq
        · exact hS i j bi si ni shi bj sj nj shj hij
            (happend _ _ i hi (lt_trans hij hjlt)) (happend _ _ j hj hjlt) hbb
        · subst hjeq
          rw [List.get?_concat_length] at hj
          cases hj
          have hilt : i < acc.length := hij
          have hi' := happend _ _ i hi hilt
          have := hR _ (List.get?_mem hi') bi si ni shi rfl
          subst hbb
          exact absurd this.1 (lt_irrefl _)
    cases hcur : st.currentArena with
    | none => exact freshCase _ _ rfl rfl
    | some b0 =>
      by_cases hfit : shapeTotalSize sh > ARENASIZE - st.used
      · simp only [hfit, if_pos]
        exact freshCase _ _ rfl rfl
      · simp only [hfit, if_neg, if_false]
        refine ⟨?_, ?_, ?_⟩
        · intro b hb
          simp only at hb
          cases hb
          exact hInv b0 hcur
        · intro r hr b s1 n1 shp hreq
          rcases List.mem_append.mp hr with h | h
          · have := hR r h b s1 n1 shp hreq
            refine ⟨this.1, ?_⟩
            intro hcb
            simp only at hcb
            cases hcb
            have := this.2 hcur
            show s1 + n1 ≤ st.used + shapeTotalSize sh
            omega
          · simp only [List.mem_singleton] at h
            subst h
            cases hreq
            exact ⟨hInv b0 hcur, fun _ => le_refl _⟩
        · intro i j bi si ni shi bj sj nj shj hij hi hj hbb
          have hjlen : j ≤ acc.length := hlen _ j (by rw [hj]; simp)
          rcases lt_or_eq_of_le hjlen with hjlt | hjeq
          · exact hS i j bi si ni shi bj sj nj shj hij
              (happend _ _ i hi (lt_trans hij hjlt)) (happend _ _ j hj hjlt) hbb
          · subst hjeq
            rw [List.get?_concat_length] at hj
            cases hj
            have hilt : i < acc.length := hij
            have hi' := happend _ _ i hi hilt
            have := hR _ (List.get?_mem hi') bi si ni shi rfl
            subst hbb
            exact this.2 hcur

theorem allocSeq_ok : ∀ (shapes : List (List Nat)) (st : ArenaState)
    (acc : List ArenaResult), ArenaInv st → RegionsOk st acc →
    SameBlockOrdered acc →
    ArenaInv (allocSeq st shapes).2 ∧
    RegionsOk (allocSeq st shapes).2 (acc ++ (allocSeq st shapes).1) ∧
    SameBlockOrdered (acc ++ (allocSeq st shapes).1) := by
  intro shapes
  induction shapes with
  | nil => intro st acc h1 h2 h3; simpa [allocSeq] using ⟨h1, h2, h3⟩
  | cons sh rest ih =>
    intro st acc h1 h2 h3
    have hstep := arena_step_ok st sh acc h1 h2 h3
    have hrec := ih (AllocateTensorInArena st sh).2
      (acc ++ [(AllocateTensorInArena st sh).1]) hstep.1 hstep.2.1 hstep.2.2
    simpa [allocSeq, List.append_assoc] using hrec

/-- C7: the arena allocator returns a standalone tensor iff the element
count exceeds ARENASIZE; otherwise, when no arena block exists or the
remaining capacity is insufficient, it allocates a fresh ARENASIZE block,
resets the offset to 0 (dropping the prior residual) and carves from the
start; otherwise it carves the contiguous element range
[used, used + numel) from the current block and advances the used counter;
consequently any two allocations carved from the same block never
overlap (the earlier lies entirely below the later). -/
theorem c7_arena_policy :
    (∀ (st : ArenaState) (shape : List Nat),
      ((AllocateTensorInArena st shape).1 = ArenaResult.standalone shape ↔
        shapeTotalSize shape > ARENASIZE)) ∧
    (∀ (st : ArenaState) (shape : List Nat),
      shapeTotalSize shape ≤ ARENASIZE →
      (st.currentArena = none ∨ shapeTotalSize shape > ARENASIZE - st.used) →
      AllocateTensorInArena st shape =
        (ArenaResult.region st.nextId 0 (shapeTotalSize shape) shape,
         ⟨some st.nextId, shapeTotalSize shape, st.nextId + 1⟩)) ∧
    (∀ (st : ArenaState) (b : Nat) (shape : List Nat),
      shapeTotalSize shape ≤ ARENASIZE → st.currentArena = some b →
      shapeTotalSize shape ≤ ARENASIZE - st.used →
      AllocateTensorInArena st shape =
        (ArenaResult.region b st.used (shapeTotalSize shape) shape,
         ⟨some b, st.used + shapeTotalSize shape, st.nextId⟩)) ∧
    (∀ (st : ArenaState) (shapes : List (List Nat)), ArenaInv st →
      ∀ i j bi si ni shi bj sj nj shj, i < j →
        (allocSeq st shapes).1.get? i = some (ArenaResult.region bi si ni shi) →
        (allocSeq st shapes).1.get? j = some (ArenaResult.region bj sj nj shj) →
        bi = bj → si + ni ≤ sj) := by
  refine ⟨?_, ?_, ?_, ?_⟩
  · intro st shape
    constructor
    · intro h
      by_contra hbig
      push_neg at hbig
      unfold AllocateTensorInArena at h
      simp only [gt_iff_lt, Nat.not_lt.mpr hbig, if_false] at h
      rcases hcur : st.currentArena with _ | b <;> rw [hcur] at h
      · cases h
      · by_cases hfit : shapeTotalSize shape > ARENASIZE - st.used <;>
          simp only [hfit, if_true, if_false] at h <;> cases h
    · intro h
      unfold AllocateTensorInArena
      simp only [gt_iff_lt] at h
      simp [h]
  · intro st shape hle hcond
    unfold AllocateTensorInArena
    simp only [gt_iff_lt, Nat.not_lt.mpr hle, if_false]
    rcases hcond with hnone | hfit
    · rw [hnone]
    · rcases hcur : st.currentArena with _ | b
      · rfl
      · simp only [gt_iff_lt] at hfit
        simp [hfit]
  · intro st b shape hle hcur hfit
    unfold AllocateTensorInArena
    simp only [gt_iff_lt, Nat.not_lt.mpr hle, if_false]
    rw [hcur]
    simp [Nat.not_lt.mpr hfit]
  · intro st shapes hInv i j bi si ni shi bj sj nj shj hij hi hj hbb
    have h := allocSeq_ok shapes st [] hInv
      (by intro r hr; cases hr) (by intro i j bi si ni shi bj sj nj shj _ h; cases h)
    have := h.2.2
    simp only [List.nil_append] at this
    exact this i j bi si ni shi bj sj nj shj hij hi hj hbb

/-- Witness for C7 at concrete inputs: a 64000001-element request is
standalone; a fitting request carves at the used offset; two successive
small allocations from the fresh block are disjoint. -/
theorem c7_arena_policy_witness :
    ((AllocateTensorInArena ⟨none, 0, 0⟩ [64000001]).1 =
      ArenaResult.standalone [64000001]) ∧
    (AllocateTensorInArena ⟨some 0, 10, 1⟩ [2, 3] =
      (ArenaResult.region 0 10 6 [2, 3], ⟨some 0, 16, 1⟩)) ∧
    (0 : Nat) + 2 ≤ 2 := by
  refine ⟨?_, ?_, ?_⟩
  · exact (c7_arena_policy.1 ⟨none, 0, 0⟩ [64000001]).mpr (by decide)
  · exact c7_arena_policy.2.2.1 ⟨some 0, 10, 1⟩ 0 [2, 3] (by decide) rfl (by decide)
  · exact c7_arena_policy.2.2.2 ⟨none, 0, 0⟩ [[2], [3]]
      (by intro b h; cases h) 0 1 0 0 2 [2] 0 2 3 [3] (by decide) rfl rfl rfl

/-! ## Scheduler properties (claims C1, C2, C3, C9) -/

theorem inputsMatch_iff (sh : VarId → List Nat) (op : PrimitiveOpType) :
    ∀ (xs ys : List VarId) (k : Nat), xs.length = ys.length →
    (inputsMatch sh op k xs ys = true ↔
      ∀ j, j < xs.length →
        (if op = PrimitiveOpType.Times ∧ k + j = 0 then
          xs.getD j 0 = ys.getD j 0
        else
          sh (xs.getD j 0) = sh (ys.getD j 0))) := by
  intro xs
  induction xs with
  | nil =>
    intro ys k _
    simp [inputsMatch]
  | cons x xs ih =>
    intro ys k hlen
    cases ys with
    | nil => cases hlen
    | cons y ys =>
      have hlen' : xs.length = ys.length := by
        simpa using hlen
      constructor
      · intro h j hj
        rw [inputsMatch, Bool.and_eq_true] at h
        cases j with
        | zero =>
          simp only [Nat.add_zero, List.getD_cons_zero]
          by_cases hc : op = PrimitiveOpType.Times ∧ k = 0
          · rw [if_pos hc]
            have := h.1
            rw [if_pos hc] at this
            exact beq_iff_eq.mp this
          · rw [if_neg hc]
            have := h.1
            rw [if_neg hc] at this
            exact beq_iff_eq.mp this
        | succ j' =>
          have hj' : j' < xs.length := by simpa using hj
          have := (ih ys (k + 1) hlen').mp h.2 j' hj'
          have harith : k + 1 + j' = k + (j' + 1) := by omega
          rw [harith] at this
          simpa using this
      · intro h
        rw [inputsMatch, Bool.and_eq_true]
        constructor
        · have := h 0 (by simp)
          simp only [Nat.add_zero, List.getD_cons_zero] at this
          by_cases hc : op = PrimitiveOpType.Times ∧ k = 0
          · rw [if_pos hc] at this ⊢
            exact beq_iff_eq.mpr this
          · rw [if_neg hc] at this ⊢
            exact beq_iff_eq.mpr this
        · refine (ih ys (k + 1) hlen').mpr ?_
          intro j hj
          have := h (j + 1) (by simpa using hj)
          have harith : k + (j + 1) = k + 1 + j := by omega
          rw [harith] at this
          simpa using this

/-- Invariant of the regular bucket list: every bucket is non-empty and
every member behind the front is batchable with the front (this is how
Schedule fills buckets, line 231). -/
def BucketHeadBatchable (env : Env) (bs : List (List FunId)) : Prop :=
  ∀ b ∈ bs, ∃ h rest, b = h :: rest ∧ ∀ g ∈ rest, AreBatchable env g h = true

theorem insertRegular_preserves_inv (env : Env) (f : FunId) :
    ∀ bs, BucketHeadBatchable env bs →
    BucketHeadBatchable env (insertRegular env f bs) := by
  intro bs
  induction bs with
  | nil =>
    intro _ b hb
    simp only [insertRegular, List.mem_singleton] at hb
    subst hb
    exact ⟨f, [], rfl, by simp⟩
  | cons b0 bs ih =>
    intro hinv
    rw [insertRegular]
    by_cases hh : headBatchable env f b0
    · rw [if_pos hh]
      intro b hb
      rcases List.mem_cons.mp hb with hb | hb
      · obtain ⟨h, rest, hb0, hrest⟩ := hinv b0 (List.mem_cons_self _ _)
        subst hb
        refine ⟨h, rest ++ [f], by rw [hb0]; rfl, ?_⟩
        intro g hg
        rcases List.mem_append.mp hg with hg | hg
        · exact hrest g hg
        · simp only [List.mem_singleton] at hg
          subst hg
          rw [headBatchable, hb0] at hh
          exact hh
      · exact hinv b (List.mem_cons_of_mem _ hb)
    · rw [if_neg hh]
      intro b hb
      rcases List.mem_cons.mp hb with hb | hb
      · subst hb
        exact hinv b (List.mem_cons_self _ _)
      · exact ih (fun c hc => hinv c (List.mem_cons_of_mem _ hc)) b hb

/-- Schedule preserves the bucket invariant (and with it the
non-emptiness of every bucket that pop_best and claim C2 rely on). -/
theorem schedule_preserves_inv (env : Env) (s : ReadyOps) (f : FunId)
    (hinv : BucketHeadBatchable env s.regularOps) :
    BucketHeadBatchable env (Schedule env s f).regularOps := by
  rw [Schedule]
  by_cases hb : (env.funOf f).op = PrimitiveOpType.BarrierOp
  · rw [if_pos hb]
    exact hinv
  · rw [if_neg hb]
    by_cases hv : IsViewOp (env.funOf f).op
    · rw [if_pos hv]
      exact hinv
    · rw [if_neg hv]
      exact insertRegular_preserves_inv env f s.regularOps hinv

theorem areBatchable_times_weight (env : Env) (g h : FunId)
    (wa wh : VarId) (hop : (env.funOf g).op = PrimitiveOpType.Times)
    (hwa : (env.funOf g).inputs.get? 0 = some wa)
    (hwh : (env.funOf h).inputs.get? 0 = some wh)
    (hbatch : AreBatchable env g h = true) : wa = wh := by
  rw [AreBatchable] at hbatch
  simp only [Bool.and_eq_true, beq_iff_eq] at hbatch
  rcases hxa : (env.funOf g).inputs with _ | ⟨x, xs⟩
  · rw [hxa] at hwa; cases hwa
  · rcases hxb : (env.funOf h).inputs with _ | ⟨y, ys⟩
    · rw [hxb] at hwh; cases hwh
    · rw [hxa] at hwa
      rw [hxb] at hwh
      simp only [List.get?_cons_zero, Option.some_inj] at hwa hwh
      subst hwa; subst hwh
      have hm := hbatch.1.2
      rw [hxa, hxb, inputsMatch, if_pos ⟨hop, rfl⟩, Bool.and_eq_true] at hm
      exact beq_iff_eq.mp hm.1

/-- C1: for two regular (non-view) ready functions with the same op code and
arity (the arity equation is asserted by the code at line 187), the
batchability predicate holds iff the arities agree, every input position
matches (same data-fields object for the first argument of a Times, same
shape otherwise), and the attribute dictionaries are equal; consequently
two Times functions whose first (weight) operands are distinct variables
are never batchable, whatever the shapes, and under the bucket invariant
maintained by Schedule any two Times members of one regular bucket carry
the very same weight variable - shape-identical but distinct weights land
in separate buckets. -/
theorem c1_areBatchable_characterization :
    (∀ (env : Env) (a b : FunId),
      IsViewOp (env.funOf a).op = false →
      (env.funOf a).op = (env.funOf b).op →
      (env.funOf a).inputs.length = (env.funOf b).inputs.length →
      (AreBatchable env a b = true ↔
        ((env.funOf a).inputs.length = (env.funOf b).inputs.length ∧
         (∀ i, i < (env.funOf a).inputs.length →
           (if (env.funOf a).op = PrimitiveOpType.Times ∧ i = 0 then
             (env.funOf a).inputs.getD i 0 = (env.funOf b).inputs.getD i 0
           else
             env.shapeOf ((env.funOf a).inputs.getD i 0) =
               env.shapeOf ((env.funOf b).inputs.getD i 0))) ∧
         (env.funOf a).attributes = (env.funOf b).attributes))) ∧
    (∀ (env : Env) (a b : FunId) (wa wb : VarId),
      (env.funOf a).op = PrimitiveOpType.Times →
      (env.funOf b).op = PrimitiveOpType.Times →
      (env.funOf a).inputs.get? 0 = some wa →
      (env.funOf b).inputs.get? 0 = some wb →
      wa ≠ wb →
      AreBatchable env a b = false) ∧
    (∀ (env : Env) (bs : List (List FunId)) (b : List FunId)
       (h g1 g2 : FunId) (rest : List FunId) (wa wb wh : VarId),
      BucketHeadBatchable env bs → b ∈ bs → b = h :: rest →
      (env.funOf h).inputs.get? 0 = some wh →
      (env.funOf g1).op = PrimitiveOpType.Times →
      (env.funOf g2).op = PrimitiveOpType.Times →
      g1 ∈ b → g2 ∈ b →
      (env.funOf g1).inputs.get? 0 = some wa →
      (env.funOf g2).inputs.get? 0 = some wb →
      wa = wb) := by
  refine ⟨?_, ?_, ?_⟩
  · intro env a b _ hop hlen
    unfold AreBatchable
    simp only [Bool.and_eq_true, beq_iff_eq]
    constructor
    · intro h
      refine ⟨hlen, ?_, h.2⟩
      intro i hi
      have := (inputsMatch_iff env.shapeOf (env.funOf a).op
        (env.funOf a).inputs (env.funOf b).inputs 0 hlen).mp h.1.2 i hi
      simpa using this
    · intro h
      refine ⟨⟨hop, ?_⟩, h.2.2⟩
      refine (inputsMatch_iff env.shapeOf (env.funOf a).op
        (env.funOf a).inputs (env.funOf b).inputs 0 hlen).mpr ?_
      intro j hj
      have := h.2.1 j hj
      simpa using this
  · intro env a b wa wb hopa hopb hwa hwb hne
    unfold AreBatchable
    rcases hxa : (env.funOf a).inputs with _ | ⟨x, xs⟩
    · rw [hxa] at hwa; cases hwa
    · rcases hxb : (env.funOf b).inputs with _ | ⟨y, ys⟩
      · rw [hxb] at hwb; cases hwb
      · rw [hxa] at hwa
        rw [hxb] at hwb
        simp only [List.get?_cons_zero, Option.some_inj] at hwa hwb
        subst hwa; subst hwb
        have hmid : inputsMatch env.shapeOf (env.funOf a).op 0
            (env.funOf a).inputs (env.funOf b).inputs = false := by
          rw [hxa, hxb]
          simp [inputsMatch, hopa, beq_eq_false_iff_ne.mpr hne]
        simp only [AreBatchable, hmid, Bool.and_false, Bool.false_and]
  · intro env bs b h g1 g2 rest wa wb wh hinv hbmem hbeq hwh hop1 hop2
      hg1 hg2 hwa hwb
    obtain ⟨h2, rest2, hb2, hrest2⟩ := hinv b hbmem
    rw [hbeq] at hb2
    injection hb2 with hh hr
    subst hh
    subst hr
    have key : ∀ g w, g ∈ b → (env.funOf g).op = PrimitiveOpType.Times →
        (env.funOf g).inputs.get? 0 = some w → w = wh := by
      intro g w hg hop hw
      rw [hbeq] at hg
      rcases List.mem_cons.mp hg with hgh | hgr
      · subst hgh
        exact Option.some_inj.mp (hw.symm.trans hwh)
      · exact areBatchable_times_weight env g h w wh hop hw hwh (hrest2 g hgr)
    rw [key g1 wa hg1 hop1 hwa, key g2 wb hg2 hop2 hwb]

/-- Concrete functions for the scheduler witnesses: two Times ops sharing
shape-identical but distinct weight variables, and two batchable Plus
ops. -/
def wEnv : Env :=
  ⟨fun f => [⟨PrimitiveOpType.Times, [10, 20], 30, []⟩,
             ⟨PrimitiveOpType.Times, [11, 20], 31, []⟩,
             ⟨PrimitiveOpType.Plus, [20, 21], 32, []⟩,
             ⟨PrimitiveOpType.Plus, [22, 23], 33, []⟩].getD f default,
   fun _ => [4]⟩

/-- Witness for C1: the two Times ops with distinct same-shape weights are
not batchable; the two Plus ops are. -/
theorem c1_areBatchable_characterization_witness :
    AreBatchable wEnv 0 1 = false ∧ AreBatchable wEnv 2 3 = true := by
  constructor
  · exact c1_areBatchable_characterization.2.1 wEnv 0 1 10 11 rfl rfl rfl rfl
      (by decide)
  · exact (c1_areBatchable_characterization.1 wEnv 2 3 rfl rfl rfl).mpr
      (by refine ⟨rfl, ?_, rfl⟩; decide)

theorem bestIndexGo_spec (full : List (List FunId)) :
    ∀ (bs : List (List FunId)) (i best bestSize : Nat),
    i ≤ full.length → bs = full.drop i → best < i →
    bestSize = (full.getD best []).length →
    (∀ j, j < i → (full.getD j []).length ≤ bestSize) →
    (∀ j, j < best → (full.getD j []).length < bestSize) →
    bestIndexGo bs i best bestSize < full.length ∧
    (∀ j, j < full.length →
      (full.getD j []).length ≤ (full.getD (bestIndexGo bs i best bestSize) []).length) ∧
    (∀ j, j < bestIndexGo bs i best bestSize →
      (full.getD j []).length < (full.getD (bestIndexGo bs i best bestSize) []).length) := by
  intro bs
  induction bs with
  | nil =>
    intro i best bestSize hi hdrop hbest hbsize hmax hstrict
    have hlen : full.length ≤ i := by
      by_contra hlt
      push_neg at hlt
      have : full.drop i ≠ [] := by
        intro h
        have := List.drop_eq_nil_iff_le.mp h
        omega
      exact this hdrop.symm
    have hieq : i = full.length := le_antisymm hi hlen
    subst hieq
    rw [bestIndexGo]
    subst hbsize
    exact ⟨lt_of_lt_of_le hbest hi, hmax, hstrict⟩
  | cons b bs ih =>
    intro i best bestSize hi hdrop hbest hbsize hmax hstrict
    have hlt : i < full.length := by
      by_contra hge
      push_neg at hge
      rw [List.drop_eq_nil_iff_le.mpr hge] at hdrop
      cases hdrop
    have hgetb : full.getD i [] = b := by
      have h0 : (full.drop i).getD 0 [] = b := by rw [← hdrop]; rfl
      rw [List.getD_eq_getElem?_getD] at h0 ⊢
      rwa [List.getElem?_drop, Nat.add_zero] at h0
    have hdrop' : bs = full.drop (i + 1) := by
      have h2 : List.drop 1 (List.drop i full) = List.drop (i + 1) full :=
        List.drop_drop 1 i full
      rw [← hdrop] at h2
      simpa using h2
    rw [bestIndexGo]
    by_cases hgt : b.length > bestSize
    · rw [if_pos hgt]
      refine ih (i + 1) i b.length (by omega) hdrop' (by omega) (by rw [hgetb]) ?_ ?_
      · intro j hj
        rcases Nat.lt_succ_iff_lt_or_eq.mp hj with h | h
        · exact le_trans (hmax j h) (le_of_lt hgt)
        · subst h; rw [hgetb]
      · intro j hj
        exact lt_of_le_of_lt (hmax j hj) hgt
    · rw [if_neg hgt]
      push_neg at hgt
      refine ih (i + 1) best bestSize (by omega) hdrop' (by omega) hbsize ?_ hstrict
      intro j hj
      rcases Nat.lt_succ_iff_lt_or_eq.mp hj with h | h
      · exact hmax j h
      · subst h; rw [hgetb]; exact hgt

theorem bestIndex_spec (buckets : List (List FunId)) (hne : buckets ≠ []) :
    bestIndex buckets < buckets.length ∧
    (∀ j, j < buckets.length →
      (buckets.getD j []).length ≤ (buckets.getD (bestIndex buckets) []).length) ∧
    (∀ j, j < bestIndex buckets →
      (buckets.getD j []).length < (buckets.getD (bestIndex buckets) []).length) := by
  cases buckets with
  | nil => exact absurd rfl hne
  | cons b bs =>
    rw [bestIndex]
    exact bestIndexGo_spec (b :: bs) bs 1 0 b.length (by simp) rfl
      (by omega) (by rfl) (by intro j hj; interval_cases j; rfl)
      (by intro j hj; omega)

/-- C2: whenever the scheduler is non-empty, pop_best returns a non-empty
batch by fixed priority: the whole view queue when it is non-empty;
otherwise the regular bucket of maximal size (earliest bucket on ties, and
that bucket is removed from the bucket list); otherwise the whole barrier
queue.  The hypothesis that every regular bucket is non-empty is the
scheduler invariant (Schedule only creates singleton or extended
buckets). -/
theorem c2_pop_best_priority (s : ReadyOps)
    (hbuckets : ∀ b ∈ s.regularOps, b ≠ [])
    (hne : s.isEmpty = false) :
    (pop_best s).1 ≠ [] ∧
    (s.viewOps ≠ [] → pop_best s = (s.viewOps, { s with viewOps := [] })) ∧
    (s.viewOps = [] → s.regularOps ≠ [] →
      ∃ k, k < s.regularOps.length ∧
        (pop_best s).1 = s.regularOps.getD k [] ∧
        (∀ j, j < s.regularOps.length →
          (s.regularOps.getD j []).length ≤ (s.regularOps.getD k []).length) ∧
        (∀ j, j < k →
          (s.regularOps.getD j []).length < (s.regularOps.getD k []).length) ∧
        (pop_best s).2 = { s with regularOps := s.regularOps.eraseIdx k }) ∧
    (s.viewOps = [] → s.regularOps = [] →
      pop_best s = (s.barrierOps, { s with barrierOps := [] })) := by
  by_cases hv : s.viewOps = []
  · by_cases hr : s.regularOps = []
    · have hb : s.barrierOps ≠ [] := by
        intro hbe
        rw [ReadyOps.isEmpty, hv, hr, hbe] at hne
        simp at hne
      have hpop : pop_best s = (s.barrierOps, { s with barrierOps := [] }) := by
        rw [pop_best]
        simp [hv, hr]
      refine ⟨?_, ?_, ?_, ?_⟩
      · rw [hpop]; exact hb
      · intro h; exact absurd hv h
      · intro _ h; exact absurd hr h
      · intro _ _; exact hpop
    · have hspec := bestIndex_spec s.regularOps hr
      have hpop : pop_best s =
          ((s.regularOps.getD (bestIndex s.regularOps) []),
           { s with regularOps := s.regularOps.eraseIdx (bestIndex s.regularOps) }) := by
        rw [pop_best]
        simp [hv, hr]
      refine ⟨?_, ?_, ?_, ?_⟩
      · rw [hpop]
        have hmem : s.regularOps.getD (bestIndex s.regularOps) [] ∈ s.regularOps := by
          rw [List.getD_eq_getElem?_getD]
          have := List.getElem?_eq_getElem hspec.1
          rw [this]
          exact List.getElem_mem _
        exact hbuckets _ hmem
      · intro h; exact absurd hv h
      · intro _ _
        exact ⟨bestIndex s.regularOps, hspec.1, by rw [hpop], hspec.2.1,
          hspec.2.2, by rw [hpop]⟩
      · intro _ h; exact absurd h hr
  · have hpop : pop_best s = (s.viewOps, { s with viewOps := [] }) := by
      rw [pop_best]
      simp [hv]
    refine ⟨?_, ?_, ?_, ?_⟩
    · rw [hpop]; exact hv
    · intro _; exact hpop
    · intro h; exact absurd h hv
    · intro h; exact absurd h hv

/-- Witness for C2 at a concrete scheduler state: two regular buckets of
sizes 1 and 2; pop_best hands out the second (larger) bucket and removes
it. -/
theorem c2_pop_best_priority_witness :
    (pop_best ⟨[], [[5], [6, 7]], [9]⟩).1 ≠ [] ∧
    pop_best ⟨[], [[5], [6, 7]], [9]⟩ = ([6, 7], ⟨[], [[5]], [9]⟩) := by
  have h := c2_pop_best_priority ⟨[], [[5], [6, 7]], [9]⟩ (by decide) rfl
  refine ⟨h.1, ?_⟩
  decide

/-- Concrete functions for the Schedule and NotifyInputAvailable claims: a
barrier op (op code BarrierOp = NoOp), a Pass view op and a regular Tanh. -/
def bEnv : Env :=
  ⟨fun f => [⟨PrimitiveOpType.NoOp, [], 40, []⟩,
             ⟨PrimitiveOpType.Pass, [41], 42, []⟩,
             ⟨PrimitiveOpType.Tanh, [43], 44, []⟩].getD f default,
   fun _ => [4]⟩

/-- Counterexample to C3 as stated: the op code BarrierOp (NoOp) is in the
view-only list, yet Schedule puts such a function on the barrier queue
alone and not on the view queue (the barrier test of line 221 comes before
the view test of line 223, and the two are exclusive branches). -/
theorem c3_schedule_counterexample :
    IsViewOp (bEnv.funOf 0).op = true ∧
    (bEnv.funOf 0).op = PrimitiveOpType.BarrierOp ∧
    Schedule bEnv ReadyOps.initial 0 = ⟨[], [], [0]⟩ := by
  decide

theorem insertRegular_no_match (env : Env) (f : FunId) :
    ∀ bs, (∀ b ∈ bs, headBatchable env f b = false) →
    insertRegular env f bs = bs ++ [[f]] := by
  intro bs
  induction bs with
  | nil => intro _; rfl
  | cons b bs ih =>
    intro h
    rw [insertRegular, if_neg]
    · rw [ih (fun b hb => h b (List.mem_cons_of_mem _ hb))]
      rfl
    · simp [h b (List.mem_cons_self b bs)]

theorem insertRegular_first_match (env : Env) (f : FunId) :
    ∀ (bs : List (List FunId)) (k : Nat), k < bs.length →
    headBatchable env f (bs.getD k []) = true →
    (∀ j, j < k → headBatchable env f (bs.getD j []) = false) →
    insertRegular env f bs =
      bs.take k ++ [(bs.getD k []) ++ [f]] ++ bs.drop (k + 1) := by
  intro bs
  induction bs with
  | nil => intro k hk; simp at hk
  | cons b bs ih =>
    intro k hk hhead hprev
    cases k with
    | zero =>
      rw [insertRegular, if_pos]
      · rfl
      · simpa using hhead
    | succ k' =>
      rw [insertRegular, if_neg]
      · have := ih k' (by simpa using hk) (by simpa using hhead)
          (fun j hj => by simpa using hprev (j + 1) (by omega))
        rw [this]
        rfl
      · have h0 := hprev 0 (Nat.succ_pos _)
        simp only [List.getD_cons_zero] at h0
        simp [h0]

/-- C3 amended: Schedule sends a BarrierOp (= NoOp) function onto the
barrier queue alone; a view op other than the barrier onto the view queue;
every other op is appended to the first regular bucket whose head is
batchable with it, or opens a new singleton bucket at the end. -/
theorem c3_schedule_classification (env : Env) (s : ReadyOps) (f : FunId) :
    ((env.funOf f).op = PrimitiveOpType.BarrierOp →
      Schedule env s f = { s with barrierOps := s.barrierOps ++ [f] }) ∧
    ((env.funOf f).op ≠ PrimitiveOpType.BarrierOp →
      IsViewOp (env.funOf f).op = true →
      Schedule env s f = { s with viewOps := s.viewOps ++ [f] }) ∧
    (IsViewOp (env.funOf f).op = false →
      Schedule env s f = { s with regularOps := insertRegular env f s.regularOps } ∧
      ((∀ b ∈ s.regularOps, headBatchable env f b = false) →
        insertRegular env f s.regularOps = s.regularOps ++ [[f]]) ∧
      (∀ k, k < s.regularOps.length →
        headBatchable env f (s.regularOps.getD k []) = true →
        (∀ j, j < k → headBatchable env f (s.regularOps.getD j []) = false) →
        insertRegular env f s.regularOps =
          s.regularOps.take k ++ [(s.regularOps.getD k []) ++ [f]] ++
            s.regularOps.drop (k + 1))) := by
  refine ⟨?_, ?_, ?_⟩
  · intro hb
    rw [Schedule, if_pos hb]
  · intro hb hview
    rw [Schedule, if_neg hb, if_pos hview]
  · intro hview
    have hb : (env.funOf f).op ≠ PrimitiveOpType.BarrierOp := by
      intro h
      rw [h] at hview
      cases hview
    refine ⟨?_, insertRegular_no_match env f s.regularOps,
      insertRegular_first_match env f s.regularOps⟩
    rw [Schedule, if_neg hb, if_neg (by simp [hview])]

/-- Witness for C3 amended at concrete inputs: the barrier function goes to
the barrier queue, the Pass to the view queue, the Tanh opens a regular
bucket. -/
theorem c3_schedule_classification_witness :
    Schedule bEnv ReadyOps.initial 0 = ⟨[], [], [0]⟩ ∧
    Schedule bEnv ReadyOps.initial 1 = ⟨[1], [], []⟩ ∧
    Schedule bEnv ReadyOps.initial 2 = ⟨[], [[2]], []⟩ := by
  refine ⟨?_, ?_, ?_⟩
  · exact ((c3_schedule_classification bEnv ReadyOps.initial 0).1 rfl).trans rfl
  · exact ((c3_schedule_classification bEnv ReadyOps.initial 1).2.1
      (by decide) rfl).trans rfl
  · exact (((c3_schedule_classification bEnv ReadyOps.initial 2).2.2
      rfl).1).trans rfl

/-- C9: NotifyInputAvailable fails with a LogicError when the pending
counter is already at (or below) zero; otherwise it decrements the counter
and calls Schedule exactly when the counter reaches zero. -/
theorem c9_notify_input_available (env : Env) (pending : FunId → Int)
    (s : ReadyOps) (f : FunId) :
    (pending f ≤ 0 →
      NotifyInputAvailable env pending s f =
        .error "NotifyInputAvailable: pending inputs already 0 yet we are executing it") ∧
    (0 < pending f →
      NotifyInputAvailable env pending s f =
        .ok (upd pending f (pending f - 1),
             if pending f = 1 then Schedule env s f else s)) := by
  constructor
  · intro h
    rw [NotifyInputAvailable, if_pos h]
  · intro h
    rw [NotifyInputAvailable, if_neg (by omega)]
    by_cases h1 : pending f = 1
    · rw [if_pos h1, if_pos (by omega)]
    · rw [if_neg h1, if_neg (by omega)]

/-- Witness for C9 at concrete inputs: a zero counter errors; a counter of
one decrements to zero and schedules. -/
theorem c9_notify_input_available_witness :
    NotifyInputAvailable bEnv (fun _ => 0) ReadyOps.initial 2 =
      .error "NotifyInputAvailable: pending inputs already 0 yet we are executing it" ∧
    NotifyInputAvailable bEnv (fun _ => 1) ReadyOps.initial 2 =
      .ok (upd (fun _ => 1) 2 0, ⟨[], [[2]], []⟩) := by
  constructor
  · exact (c9_notify_input_available bEnv (fun _ => 0) ReadyOps.initial 2).1
      (by decide)
  · exact ((c9_notify_input_available bEnv (fun _ => 1) ReadyOps.initial 2).2
      (by decide)).trans (by rfl)

/-! ## Batch-execution mode decision (claim C4) -/

/-- C4: ExecuteBatchedOpAndUpdateSchedule branches on doNaively (line 438),
executing each op of the batch individually exactly when the representative
op is a view op, or it is a Times whose second operand holds a (present and)
sparse value, or it is a Splice, or the batch size is 1; in every other
case it takes the fused branch, which builds the fused inputs and a single
fused op. -/
theorem c4_naive_mode_decision (s : EngineState) (f0 : FunId)
    (batchSize : Nat) :
    (∀ (fuel : Nat) (rest : List FunId),
      executeBatch fuel s (f0 :: rest) =
        if doNaively s f0 (f0 :: rest).length then
          execNaiveLoop fuel s (f0 :: rest) (IsViewOp (funLookup s f0).op)
            >>= fun s1 => notifyOutputs s1 (f0 :: rest)
        else
          execFusedBranch fuel s (f0 :: rest) f0
            >>= fun s1 => notifyOutputs s1 (f0 :: rest)) ∧
    (doNaively s f0 batchSize = true ↔
      (IsViewOp (funLookup s f0).op = true ∨
       ((funLookup s f0).op = PrimitiveOpType.Times ∧
         ∃ u t, (funLookup s f0).inputs.get? 1 = some u ∧
           s.value u = some t ∧ t.isSparse s.leafSparse = true) ∨
       (funLookup s f0).op = PrimitiveOpType.Splice ∨
       batchSize = 1)) := by
  refine ⟨fun fuel rest => by rw [executeBatch], ?_⟩
  rw [doNaively]
  rcases hu : (funLookup s f0).inputs.get? 1 with _ | u
  · simp only [hu, Bool.or_eq_true, Bool.and_eq_true, beq_iff_eq,
      Bool.false_eq_true, and_false, false_and, or_false]
    simp only [reduceCtorEq, false_and, and_false, exists_const, or_false,
      exists_false]
    tauto
  · rcases hv : s.value u with _ | t
    · simp only [hu, hv, Bool.or_eq_true, Bool.and_eq_true, beq_iff_eq,
        Bool.false_eq_true, and_false, or_false, Option.some_inj]
      constructor
      · rintro ((h | h) | h)
        · exact Or.inl h
        · exact Or.inr (Or.inr (Or.inl h))
        · exact Or.inr (Or.inr (Or.inr h))
      · rintro (h | ⟨_, u', t', hu', hv', _⟩ | h | h)
        · exact Or.inl (Or.inl h)
        · cases hu'
          rw [hv] at hv'
          cases hv'
        · exact Or.inl (Or.inr h)
        · exact Or.inr h
    · simp only [hu, hv, Bool.or_eq_true, Bool.and_eq_true, beq_iff_eq,
        Option.some_inj]
      constructor
      · rintro (((h | ⟨hop, hsp⟩) | h) | h)
        · exact Or.inl h
        · exact Or.inr (Or.inl ⟨hop, u, t, rfl, hv, hsp⟩)
        · exact Or.inr (Or.inr (Or.inl h))
        · exact Or.inr (Or.inr (Or.inr h))
      · rintro (h | ⟨hop, u', t', hu', hv', hsp⟩ | h | h)
        · exact Or.inl (Or.inl (Or.inl h))
        · cases hu'
          rw [hv] at hv'
          cases hv'
          exact Or.inl (Or.inl (Or.inr ⟨hop, hsp⟩))
        · exact Or.inl (Or.inr h)
        · exact Or.inr h

/-! ## Forward idempotence (claim C8) -/

theorem except_bind_ok {α β : Type} (x : Except String α)
    (f : α → Except String β) (b : β) (h : (x >>= f) = .ok b) :
    ∃ a, x = .ok a ∧ f a = .ok b := by
  cases x with
  | error e => simp [Bind.bind, Except.bind] at h
  | ok a => exact ⟨a, rfl, by simpa [Bind.bind, Except.bind] using h⟩

theorem except_map_ok {α β : Type} (x : Except String α) (f : α → β)
    (b : β) (h : x.map f = .ok b) : ∃ a, x = .ok a ∧ f a = b := by
  cases x with
  | error e => simp [Except.map] at h
  | ok a =>
    refine ⟨a, rfl, ?_⟩
    simpa [Except.map] using h

/-- A successful LazilyIndexedValue leaves the returned tensor cached in the
m_value slot of the requested variable (lines 346-349). -/
theorem lazilyIndexedValue_caches (fuel : Nat) (s : EngineState) (v : VarId)
    (t : TensorExpr) (s' : EngineState)
    (h : lazilyIndexedValue fuel s v = .ok (t, s')) : s'.value v = some t := by
  cases fuel with
  | zero => cases h
  | succ fuel =>
    rcases hv : s.value v with _ | t0 <;>
      rcases hl : s.lazyIndex v with _ | ⟨f, idx⟩ <;>
        simp only [lazilyIndexedValue, hv, hl] at h
    · cases h
    · obtain ⟨r, hrec, h2⟩ := except_bind_ok _ _ _ h
      cases h2
      simp
    · cases h; exact hv
    · cases h; exact hv

/-- C8: a second forward call on the same variable returns the identical
tensor object and the identical engine state (hence no further traversal,
scheduling, arena allocation, or kernel invocation, the kernel counter
included): whenever the value slot is populated, GetValue returns it
immediately, and a successful GetValue always leaves the value slot of the
requested variable populated with the returned tensor. -/
theorem c8_getValue_idempotent (fuel fuel2 : Nat) (s : EngineState)
    (v : VarId) (t : TensorExpr) (s₁ : EngineState)
    (h : getValue fuel s v = .ok (t, s₁)) :
    getValue fuel2 s₁ v = .ok (t, s₁) := by
  have hval : s₁.value v = some t := by
    rw [getValue] at h
    rcases hv : s.value v with _ | t0
    · rw [hv] at h
      obtain ⟨s2, h1, h⟩ := except_bind_ok _ _ _ h
      obtain ⟨s3, h2, h⟩ := except_bind_ok _ _ _ h
      exact lazilyIndexedValue_caches fuel s3 v t s₁ h
    · rw [hv] at h
      cases h
      exact hv
  rw [getValue, hval]

/-- The concrete graph shared by the idempotence witness and the
state-cleanliness counterexample: a Parameter (variable 0) feeding a Tanh
(function 0, output variable 1) feeding a second Tanh (function 1, output
variable 2). -/
def exFuns : List GFun :=
  [⟨PrimitiveOpType.Tanh, [0], 1, []⟩, ⟨PrimitiveOpType.Tanh, [1], 2, []⟩]

/-- The initial engine state over exFuns: no values, no gradients, pending
counters at -1, empty consumer lists, empty scheduler, fresh arena. -/
def exState : EngineState where
  funs := exFuns
  leafSparse := fun _ => false
  kindOf := fun v => if v = 0 then VarKind.Parameter else VarKind.Output
  shapeOf := fun _ => [4]
  needsGrad := fun _ => true
  ownerOf := fun v => if v = 1 then some 0 else if v = 2 then some 1 else none
  value := fun _ => none
  gradient := fun _ => none
  lazyIndex := fun _ => none
  visited := fun _ => false
  consumers := fun _ => Consumers.empty
  pending := fun _ => -1
  sched := ReadyOps.initial
  arena := ⟨none, 0, 0⟩
  kernelCount := 0
  nextVar := 100

/-- Witness for C8: run the forward pass on the concrete graph (it
succeeds), then run it again from the resulting state; the second call
returns the identical result. -/
theorem c8_getValue_idempotent_witness :
    (match getValue 20 exState 2 with
     | Except.ok r => getValue 20 r.2 2 = Except.ok r
     | Except.error _ => False) := by
  cases h : getValue 20 exState 2 with
  | error e =>
    have hT : (getValue 20 exState 2).toOption.isSome = true := by rfl
    rw [h] at hT
    simp [Except.toOption] at hT
  | ok r =>
    exact c8_getValue_idempotent 20 20 exState 2 r.1 r.2 (by rw [h])

/-! ## Lazy gradient creation (claim C5) -/

@[simp] theorem except_ok_bind {α β : Type} (a : α)
    (f : α → Except String β) : (Except.ok a >>= f) = f a := rfl

@[simp] theorem except_error_bind {α β : Type} (e : String)
    (f : α → Except String β) :
    ((Except.error e : Except String α) >>= f) = Except.error e := rfl

/-- Shorthand for implanting a gradient tensor into the slot of a
variable. -/
def withGrad (s : EngineState) (v : VarId) (g : TensorExpr) : EngineState :=
  { s with gradient := upd s.gradient v (some g) }

/-- The beta returned by LazilyCreateLazilyIndexedGradient is always 0 or
1 (0 exactly on the fresh-allocation path, 1 otherwise or after the
explicit zeroing). -/
theorem ensureGradient_beta : ∀ (fuel : Nat) (s : EngineState) (v : VarId)
    (β : Int) (s' : EngineState),
    ensureGradient fuel s v = .ok (β, s') → β = 0 ∨ β = 1 := by
  intro fuel
  induction fuel with
  | zero => intro s v β s' h; cases h
  | succ fuel ih =>
    intro s v β s' h
    rcases hg : s.gradient v with _ | g <;>
      rcases hl : s.lazyIndex v with _ | ⟨p, idx⟩ <;>
        simp only [ensureGradient, hg, hl] at h
    · cases h; left; rfl
    · obtain ⟨r, hrec, h2⟩ := except_bind_ok _ _ _ h
      rcases hfg : r.2.gradient (funLookup s p).output with _ | fg
      · simp only [hfg] at h2
        cases h2
      · simp only [hfg] at h2
        rcases idx with _ | i
        · cases h2
          exact ih _ _ _ _ hrec
        · have h3 : (if r.1 = 0 then
              Except.ok (1, withGrad
                (withGrad r.2 ((funLookup s p).output) (TensorExpr.setConst 0 fg))
                v (TensorExpr.indexLastAxis (TensorExpr.setConst 0 fg) i))
            else
              Except.ok (r.1, withGrad r.2 v (TensorExpr.indexLastAxis fg i))) =
              Except.ok (β, s') := h2
          by_cases hb : r.1 = 0
          · rw [if_pos hb] at h3
            cases h3
            right; rfl
          · rw [if_neg hb] at h3
            cases h3
            exact ih _ _ _ _ hrec
    · cases h; right; rfl
    · cases h; right; rfl

/-- C5: LazilyCreateLazilyIndexedGradient returns 1 and changes nothing
when the gradient already exists; with no gradient and no lazy index it
allocates a fresh gradient tensor in the arena (shape of the variable) and
returns 0; with a lazy producer it recursively ensures the producer output
gradient and then: for the SIZE_MAX sentinel it shares the producer
gradient and passes the recursive beta through; for a real slice index,
when the recursive beta was 0 it explicitly zeroes the whole producer
gradient, proceeds as beta = 1 and implants an index-last-axis view of the
zeroed tensor, and when the recursive beta was nonzero it implants an
index-last-axis view and passes beta through. -/
theorem c5_ensure_gradient (fuel : Nat) (s : EngineState) (v : VarId) :
    (∀ g, s.gradient v = some g → ensureGradient (fuel + 1) s v = .ok (1, s)) ∧
    (s.gradient v = none → s.lazyIndex v = none →
      ensureGradient (fuel + 1) s v =
        .ok (0, withGrad
          { s with arena := (AllocateTensorInArena s.arena (s.shapeOf v)).2 }
          v
          (TensorExpr.arenaBuf (AllocateTensorInArena s.arena (s.shapeOf v)).1))) ∧
    (∀ p idx β s₁ fg, s.gradient v = none → s.lazyIndex v = some (p, idx) →
      ensureGradient fuel s (funLookup s p).output = .ok (β, s₁) →
      s₁.gradient (funLookup s p).output = some fg →
      ((idx = none →
         ensureGradient (fuel + 1) s v = .ok (β, withGrad s₁ v fg)) ∧
       (∀ i, idx = some i → β = 0 →
         ensureGradient (fuel + 1) s v =
           .ok (1, withGrad
             (withGrad s₁ ((funLookup s p).output) (TensorExpr.setConst 0 fg))
             v
             (TensorExpr.indexLastAxis (TensorExpr.setConst 0 fg) i))) ∧
       (∀ i, idx = some i → β ≠ 0 →
         ensureGradient (fuel + 1) s v =
           .ok (β, withGrad s₁ v (TensorExpr.indexLastAxis fg i))))) := by
  refine ⟨?_, ?_, ?_⟩
  · intro g hg
    simp only [ensureGradient, hg]
  · intro hg hl
    simp only [ensureGradient, hg, hl, withGrad]
  · intro p idx β s₁ fg hg hl hrec hfg
    refine ⟨?_, ?_, ?_⟩
    · intro hidx
      subst hidx
      simp only [ensureGradient, hg, hl, hrec, except_ok_bind, hfg, withGrad]
    · intro i hidx hb
      subst hidx
      subst hb
      simp only [ensureGradient, hg, hl, hrec, except_ok_bind, hfg, withGrad,
        if_pos]
    · intro i hidx hb
      subst hidx
      simp only [ensureGradient, hg, hl, hrec, except_ok_bind, hfg, withGrad,
        if_neg hb]

/-- The concrete graph for the C5 witness: variable 5 is a lazy slice
(index 1) into the output (variable 6) of function 0; variable 6 owns no
gradient yet. -/
def gState : EngineState where
  funs := [⟨PrimitiveOpType.Tanh, [3], 6, []⟩]
  leafSparse := fun _ => false
  kindOf := fun _ => VarKind.Output
  shapeOf := fun _ => [4]
  needsGrad := fun _ => true
  ownerOf := fun _ => none
  value := fun _ => none
  gradient := fun _ => none
  lazyIndex := fun v => if v = 5 then some (0, some 1) else none
  visited := fun _ => false
  consumers := fun _ => Consumers.empty
  pending := fun _ => -1
  sched := ReadyOps.initial
  arena := ⟨none, 0, 0⟩
  kernelCount := 0
  nextVar := 100

/-- The producer gradient freshly allocated for variable 6. -/
def gFg : TensorExpr := TensorExpr.arenaBuf (ArenaResult.region 0 0 4 [4])

/-- The state after ensuring the gradient of variable 6. -/
def gState1 : EngineState :=
  withGrad { gState with arena := ⟨some 0, 4, 1⟩ } 6 gFg

/-- Witness for C5 at concrete inputs: ensuring the gradient of the lazy
slice 5 freshly creates the producer gradient (beta 0 below), zeroes it,
and returns beta 1 with an index-last-axis view implanted. -/
theorem c5_ensure_gradient_witness :
    ensureGradient 1 gState 6 = .ok (0, gState1) ∧
    ensureGradient 2 gState 5 =
      .ok (1, withGrad (withGrad gState1 6 (TensorExpr.setConst 0 gFg)) 5
        (TensorExpr.indexLastAxis (TensorExpr.setConst 0 gFg) 1)) := by
  have h1 : ensureGradient 1 gState 6 = .ok (0, gState1) :=
    ((c5_ensure_gradient 0 gState 6).2.1 rfl rfl).trans rfl
  refine ⟨h1, ?_⟩
  exact (((c5_ensure_gradient 1 gState 5).2.2 0 (some 1) 0 gState1 gFg
    rfl rfl h1 rfl).2.1 1 rfl rfl).trans rfl

/-! ## Backward root-gradient seeding (claim C10) -/

/-- C10: Backward, after consumer discovery and before any gradient
aggregation, unconditionally overwrites the root gradient slot with a
freshly arena-allocated tensor of the root shape whose every element is
set to 1.0 (SetValue(1.0f)), regardless of any gradient previously held:
backwardPost factors through backwardSeed, the seeded slot holds the
all-ones fresh tensor, and seeding a state whose root gradient slot was
overwritten with anything yields the same seeded slot. -/
theorem c10_backward_seeds_root_gradient (fuel : Nat) (root : VarId)
    (grads : List (VarId × Option TensorExpr)) (s : EngineState) :
    backwardPost fuel root grads s =
      (dcbStep fuel s (BwdCall.var root) >>= fun s₁ =>
        backwardFinish fuel grads (backwardSeed s₁ root)) ∧
    (∀ s₁ : EngineState,
      (backwardSeed s₁ root).gradient root =
        some (TensorExpr.setConst 1 (TensorExpr.arenaBuf
          (AllocateTensorInArena s₁.arena (s₁.shapeOf root)).1))) ∧
    (∀ (s₁ : EngineState) (g0 : TensorExpr),
      (backwardSeed
        { s₁ with gradient := upd s₁.gradient root (some g0) } root).gradient root =
      (backwardSeed s₁ root).gradient root) := by
  refine ⟨rfl, ?_, ?_⟩
  · intro s₁
    simp [backwardSeed]
  · intro s₁ g0
    simp [backwardSeed]

/-! ## Backward state after the pass (claim C6) -/

theorem ensureGradient_pending : ∀ (fuel : Nat) (s : EngineState)
    (v : VarId) (r : Int × EngineState), ensureGradient fuel s v = .ok r →
    ∀ x, r.2.pending x = s.pending x := by
  intro fuel
  induction fuel with
  | zero => intro s v r h; cases h
  | succ fuel ih =>
    intro s v r h x
    rcases hg : s.gradient v with _ | g <;>
      rcases hl : s.lazyIndex v with _ | ⟨p, idx⟩ <;>
        simp only [ensureGradient, hg, hl] at h
    · cases h; rfl
    · obtain ⟨r1, hrec, h2⟩ := except_bind_ok _ _ _ h
      have hr1 := ih s ((funLookup s p).output) r1 hrec
      rcases hfg : r1.2.gradient (funLookup s p).output with _ | fg
      · simp only [hfg] at h2
        cases h2
      · simp only [hfg] at h2
        rcases idx with _ | i
        · cases h2
          exact hr1 x
        · have h3 : (if r1.1 = 0 then
              Except.ok (1, withGrad
                (withGrad r1.2 ((funLookup s p).output) (TensorExpr.setConst 0 fg))
                v (TensorExpr.indexLastAxis (TensorExpr.setConst 0 fg) i))
            else
              Except.ok (r1.1, withGrad r1.2 v (TensorExpr.indexLastAxis fg i))) =
              Except.ok r := h2
          by_cases hb : r1.1 = 0
          · rw [if_pos hb] at h3
            cases h3
            exact hr1 x
          · rw [if_neg hb] at h3
            cases h3
            exact hr1 x
    · cases h; rfl
    · cases h; rfl

theorem backpropTo_pending (fuel : Nat) (s : EngineState) (f : FunId)
    (index : Nat) (s' : EngineState) (h : backpropTo fuel s f index = .ok s') :
    ∀ x, s'.pending x = s.pending x := by
  intro x
  rw [backpropTo] at h
  split at h
  · cases h
  · split at h
    · cases h
    · split at h
      · cases h
      · split at h
        · cases h
        · split at h
          · cases h
          · obtain ⟨r, hrec, h2⟩ := except_bind_ok _ _ _ h
            cases h2
            exact ensureGradient_pending fuel s _ r hrec x

theorem aggStep_pending : ∀ (fuel : Nat) (s : EngineState) (c : AggCall)
    (s' : EngineState), aggStep fuel s c = .ok s' →
    ∀ x, s'.pending x = s.pending x := by
  intro fuel
  induction fuel with
  | zero => intro s c s' h; cases h
  | succ fuel ih =>
    intro s c s' h x
    cases c with
    | var v =>
      rw [aggStep] at h
      split at h
      · cases h; rfl
      · split at h
        · cases h; rfl
        · split at h
          · cases h
          · obtain ⟨s1, h1, h2⟩ := except_bind_ok _ _ _ h
            have e1 := ih _ _ _ h1 x
            split at h2
            · cases h2
            · split at h2
              · have e2 := backpropTo_pending fuel _ _ _ _ h2 x
                rw [e2]
                exact e1
              · obtain ⟨s2, h3, h4⟩ := except_bind_ok _ _ _ h2
                have e2 := ih _ _ _ h3 x
                have e3 := ih _ _ _ h4 x
                rw [e3, e2]
                exact e1
    | outs cs =>
      cases cs with
      | nil => rw [aggStep] at h; cases h; rfl
      | cons c0 cs =>
        rw [aggStep] at h
        obtain ⟨s1, h1, h2⟩ := except_bind_ok _ _ _ h
        have e1 := ih _ _ _ h1 x
        have e2 := ih _ _ _ h2 x
        rw [e2]
        exact e1
    | backs cs =>
      cases cs with
      | nil => rw [aggStep] at h; cases h; rfl
      | cons c0 cs =>
        rw [aggStep] at h
        obtain ⟨s1, h1, h2⟩ := except_bind_ok _ _ _ h
        have e1 := backpropTo_pending fuel _ _ _ _ h1 x
        have e2 := ih _ _ _ h2 x
        rw [e2]
        exact e1

theorem aggregateParams_pending (fuel : Nat) :
    ∀ (grads : List (VarId × Option TensorExpr)) (s s' : EngineState),
    aggregateParams fuel s grads = .ok s' →
    ∀ x, s'.pending x = s.pending x := by
  intro grads
  induction grads with
  | nil => intro s s' h x; cases h; rfl
  | cons pb rest ih =>
    intro s s' h x
    rw [aggregateParams] at h
    obtain ⟨s1, h1, h2⟩ := except_bind_ok _ _ _ h
    have e1 := aggStep_pending fuel _ _ _ h1 x
    have e2 := ih _ _ h2 x
    rw [e2]
    exact e1

theorem implantUserGradients_pending :
    ∀ (grads : List (VarId × Option TensorExpr)) (s : EngineState),
    ∀ x, (implantUserGradients s grads).pending x = s.pending x := by
  intro grads
  induction grads with
  | nil => intro s x; rfl
  | cons pb rest ih =>
    intro s x
    cases pb with
    | mk p buf => exact ih _ x

theorem clearParamConsumers_pending :
    ∀ (grads : List (VarId × Option TensorExpr)) (s : EngineState),
    ∀ x, (clearParamConsumers s grads).pending x = s.pending x := by
  intro grads
  induction grads with
  | nil => intro s x; rfl
  | cons pb rest ih =>
    intro s x
    cases pb with
    | mk p buf => exact ih _ x

theorem clearParamConsumers_not_mem :
    ∀ (grads : List (VarId × Option TensorExpr)) (s : EngineState) (p : VarId),
    p ∉ grads.map Prod.fst →
    (clearParamConsumers s grads).consumers p = s.consumers p := by
  intro grads
  induction grads with
  | nil => intro s p _; rfl
  | cons qb rest ih =>
    intro s p hp
    cases qb with
    | mk q buf =>
      simp only [List.map_cons, List.mem_cons] at hp
      push_neg at hp
      rw [clearParamConsumers, ih _ _ hp.2]
      exact upd_other _ _ _ _ hp.1

theorem clearParamConsumers_mem :
    ∀ (grads : List (VarId × Option TensorExpr)) (s : EngineState) (p : VarId),
    p ∈ grads.map Prod.fst →
    (clearParamConsumers s grads).consumers p = Consumers.empty := by
  intro grads
  induction grads with
  | nil => intro s p hp; cases hp
  | cons qb rest ih =>
    intro s p hp
    cases qb with
    | mk q buf =>
      by_cases hrest : p ∈ rest.map Prod.fst
      · exact ih _ _ hrest
      · simp only [List.map_cons, List.mem_cons] at hp
        rcases hp with hp | hp
        · subst hp
          rw [clearParamConsumers, clearParamConsumers_not_mem rest _ _ hrest]
          exact upd_same _ _ _
        · exact absurd hp hrest

theorem dcbStep_pending : ∀ (fuel : Nat) (s : EngineState) (c : BwdCall)
    (s' : EngineState), dcbStep fuel s c = .ok s' →
    ∀ x, s'.pending x = s.pending x ∨ s'.pending x = 0 := by
  intro fuel
  induction fuel with
  | zero => intro s c s' h; cases h
  | succ fuel ih =>
    intro s c s' h x
    cases c with
    | var v =>
      rw [dcbStep] at h
      split at h
      · cases h; left; rfl
      · split at h
        · cases h
        · split at h
          · cases h
          · split at h
            · cases h
            · split at h
              · exact ih _ _ _ h x
              · split at h
                · exact ih _ _ _ h x
                · cases h
    | fn f =>
      rw [dcbStep] at h
      split at h
      · cases h
      · split at h
        · cases h; left; rfl
        · split at h
          · cases h
          · obtain ⟨sL, hL, h2⟩ := except_bind_ok _ _ _ h
            cases h2
            by_cases hx : x = f
            · subst hx
              right
              show upd sL.pending x 0 x = 0
              exact upd_same _ _ _
            · show upd sL.pending f 0 x = s.pending x ∨ upd sL.pending f 0 x = 0
              rw [upd_other _ _ _ _ hx]
              rcases ih _ _ _ hL x with hI | hI
              · have hI2 : sL.pending x = upd s.pending f (-2) x := hI
                rw [upd_other _ _ _ _ hx] at hI2
                left; exact hI2
              · right; exact hI
    | loop f us i =>
      cases us with
      | nil => rw [dcbStep] at h; cases h; left; rfl
      | cons u0 us =>
        rw [dcbStep] at h
        split at h
        · exact ih _ _ _ h x
        · obtain ⟨s1, h1, h2⟩ := except_bind_ok _ _ _ h
          rcases ih _ _ _ h1 x with hI | hI <;>
            rcases ih _ _ _ h2 x with hJ | hJ
          · left
            rw [hJ, hI]
          · right; exact hJ
          · right
            rw [hJ]
            exact hI
          · right; exact hJ

/-- C6 amended: Backward does not restore the clean state: on a successful
backward pipeline (consumer discovery, seeding, aggregation, cleanup),
every pending-inputs counter is either untouched or left at 0 - the
counter of a visited function is 0, not -1 - and only the requested
parameters have their consumer lists cleared (intermediate variables keep
the consumer entries built by the pass, as the counterexample run shows
concretely; the same run shows the forward call alone does end clean). -/
theorem c6_backward_state_amended (fuel : Nat) (root : VarId)
    (grads : List (VarId × Option TensorExpr)) (s s' : EngineState)
    (out : List (VarId × Option TensorExpr))
    (h : backwardPost fuel root grads s = .ok (s', out)) :
    (∀ x, s'.pending x = s.pending x ∨ s'.pending x = 0) ∧
    (∀ p, p ∈ grads.map Prod.fst → s'.consumers p = Consumers.empty) := by
  rw [backwardPost] at h
  obtain ⟨s1, h1, h2⟩ := except_bind_ok _ _ _ h
  rw [backwardFinish] at h2
  obtain ⟨s2, h3, h4⟩ := except_bind_ok _ _ _ h2
  cases h4
  constructor
  · intro x
    rw [clearParamConsumers_pending]
    rw [aggregateParams_pending fuel grads _ _ h3]
    rw [implantUserGradients_pending]
    have hseed : (backwardSeed s1 root).pending x = s1.pending x := rfl
    rw [hseed]
    exact dcbStep_pending fuel s _ s1 h1 x
  · intro p hp
    exact clearParamConsumers_mem grads _ p hp

/-- Counterexample to C6 as stated: starting from the clean exState (all
pending counters -1, all consumer lists empty), the public Backward call
succeeds but leaves the pending counters of both visited functions at 0
(not -1) and leaves the consumer entry (function 1, input 0) on the
intermediate variable 1; only the requested parameter 0 got its list
cleared.  The same initial state run through the forward call alone ends
clean, isolating the violation to backward. -/
theorem c6_state_cleanliness_counterexample :
    exState.pending 0 = -1 ∧ exState.pending 1 = -1 ∧
    exState.consumers 1 = Consumers.empty ∧
    (getValue 20 exState 2).map
      (fun r => (r.2.pending 0, r.2.pending 1, (r.2.consumers 0).first,
                 (r.2.consumers 1).first)) =
      Except.ok (-1, -1, none, none) ∧
    (Backward 20 exState 2 [(0, none)]).map
      (fun r => (r.1.pending 0, r.1.pending 1, (r.1.consumers 1).first,
                 (r.1.consumers 0).first)) =
      Except.ok (0, 0, some (1, 0), none) := by
  exact ⟨rfl, rfl, rfl, rfl, rfl⟩

/-- The post-forward state used by the C6 witness: every variable already
carries a value. -/
def exStateV : EngineState :=
  { exState with value := fun v => some (TensorExpr.leaf v [4]) }

/-- Witness for C6 amended: the backward pipeline on the concrete graph
succeeds; by the theorem the pending counter of function 0 is untouched or
0, and the requested parameter 0 has an empty consumer list. -/
theorem c6_backward_state_amended_witness :
    (match backwardPost 20 2 [(0, none)] exStateV with
     | Except.ok r =>
        (r.1.pending 0 = exStateV.pending 0 ∨ r.1.pending 0 = 0) ∧
        r.1.consumers 0 = Consumers.empty
     | Except.error _ => False) := by
  cases h : backwardPost 20 2 [(0, none)] exStateV with
  | error e =>
    have hT : (backwardPost 20 2 [(0, none)] exStateV).toOption.isSome = true := by
      rfl
    rw [h] at hT
    simp [Except.toOption] at hT
  | ok r =>
    have h6 := c6_backward_state_amended 20 2 [(0, none)] exStateV r.1 r.2
      (by rw [h])
    exact ⟨h6.1 0, h6.2 0 (by simp)⟩

end AutoBatch